import Mathlib

/-!
Verification of the ForgeHive task/boundary/record-tape core and the hive-sdk
log client.

The task engine, the boundary call-recording primitive and the record tape are
modelled from the design specification (their implementation files are not part
of this source tree; only their test suites are).  The hive-sdk client is
embedded from `packages/hive-sdk/src/index.ts`.
-/

set_option maxHeartbeats 1000000

/-- Structured JSON-like runtime value: the payloads that flow through task
inputs, outputs and boundary calls. -/
inductive Value where
  | vnull : Value
  | vbool (b : Bool) : Value
  | vnum (n : Int) : Value
  | vstr (s : String) : Value
  | varr (xs : List Value) : Value
  | vobj (fields : List (String × Value)) : Value
deriving Repr

/-- Timing information attached to each recorded boundary call. -/
structure Timing where
  startTime : Nat
  endTime : Nat
  duration : Nat
deriving Repr

/-- Modelled from the spec: one recorded boundary call
`{input: args[], output|error, timing}` (§3, Boundary data model). -/
structure CallRecord where
  input : List Value
  output : Option Value
  error : Option String
  timing : Timing
deriving Repr

/-- Errors surfaced by a boundary call: a thrown message, or replay-cursor
exhaustion. -/
inductive BErr where
  | thrown (msg : String) : BErr
  | replayExhausted : BErr
deriving Repr

/-- Boundary execution mode: live pass-through or replay from a recorded
sequence (§4.1). -/
inductive BoundaryMode where
  | proxy : BoundaryMode
  | replay : BoundaryMode
deriving Repr, DecidableEq

/-- Modelled from the spec: the Boundary state (§3, §4.1) — wrapped function,
optional mock, replay source plus monotone cursor, the recording flag and the
per-run tape.  The Boundary implementation file is not in this source tree. -/
structure Boundary where
  fn : List Value → Except String Value
  mockFn : Option (List Value → Except String Value)
  mode : BoundaryMode
  replaySource : List CallRecord
  cursor : Nat
  active : Bool
  tape : List CallRecord

/-- Modelled from the spec: calling the wrapped boundary (§4.1).  In proxy mode
the (possibly mocked) function executes; in replay mode the next recorded entry
is consumed and its output returned (or its error re-thrown), failing with
`ReplayExhausted` past the end.  The call is appended to the tape only while
the recording flag is set. -/
def Boundary.call (b : Boundary) (args : List Value) (t : Nat) :
    Except BErr Value × Boundary :=
  match b.mode with
  | .replay =>
    match b.replaySource[b.cursor]? with
    | none => (.error .replayExhausted, { b with cursor := b.cursor + 1 })
    | some entry =>
      let res : Except BErr Value :=
        match entry.error with
        | some m => .error (.thrown m)
        | none => .ok (entry.output.getD .vnull)
      let rec0 : CallRecord :=
        { input := args, output := entry.output, error := entry.error,
          timing := { startTime := t, endTime := t + 1, duration := 1 } }
      (res, { b with cursor := b.cursor + 1,
                     tape := if b.active then b.tape ++ [rec0] else b.tape })
  | .proxy =>
    match (b.mockFn.getD b.fn) args with
    | .ok v =>
      let rec0 : CallRecord :=
        { input := args, output := some v, error := none,
          timing := { startTime := t, endTime := t + 1, duration := 1 } }
      (.ok v, { b with tape := if b.active then b.tape ++ [rec0] else b.tape })
    | .error m =>
      let rec0 : CallRecord :=
        { input := args, output := none, error := some m,
          timing := { startTime := t, endTime := t + 1, duration := 1 } }
      (.error (.thrown m), { b with tape := if b.active then b.tape ++ [rec0] else b.tape })

/-- Modelled from the spec: `startRun()` arms recording and clears any prior
tape (§4.1). -/
def Boundary.startRun (b : Boundary) : Boundary :=
  { b with active := true, tape := [] }

/-- Modelled from the spec: `stopRun()` halts recording without clearing the
tape (§4.1). -/
def Boundary.stopRun (b : Boundary) : Boundary :=
  { b with active := false }

/-- Modelled from the spec: `getRunData()` reads the tape of the current run
(§4.1). -/
def Boundary.getRunData (b : Boundary) : List CallRecord :=
  b.tape

/-- Modelled from the spec: `createBoundary(fn)` — a fresh boundary is
inactive, in proxy mode, with an empty tape. -/
def createBoundary (f : List Value → Except String Value) : Boundary :=
  { fn := f, mockFn := none, mode := .proxy, replaySource := [],
    cursor := 0, active := false, tape := [] }

/-- One externally visible boundary operation: arm recording, disarm it, or
call the wrapped function. -/
inductive BOp where
  | start : BOp
  | stop : BOp
  | call (args : List Value) : BOp

/-- Runs a sequence of boundary operations, collecting the result of every
call (calls execute whether or not recording is active). -/
def runOps (b : Boundary) (clock : Nat) : List BOp → List (Except BErr Value) × Boundary
  | [] => ([], b)
  | .start :: rest => runOps b.startRun clock rest
  | .stop :: rest => runOps b.stopRun clock rest
  | .call args :: rest =>
    let p := b.call args clock
    let q := runOps p.2 (clock + 1) rest
    (p.1 :: q.1, q.2)

/-- Argument lists of the call operations in a sequence, in order. -/
def callArgsOf (ops : List BOp) : List (List Value) :=
  ops.filterMap (fun o => match o with | .call a => some a | _ => none)

/-- True when the operation is `stopRun`. -/
def BOp.isStop : BOp → Bool
  | .stop => true
  | _ => false

/-- True when the operation is `startRun`. -/
def BOp.isStart : BOp → Bool
  | .start => true
  | _ => false

/-- The operations that follow the most recent `startRun` of the sequence, or
`none` when recording was never armed. -/
def afterLastStart : List BOp → Option (List BOp)
  | [] => none
  | op :: rest =>
    match afterLastStart rest with
    | some s => some s
    | none => if op.isStart then some rest else none

/-- Declarative reading of §4.1: the run data a boundary should expose — the
arguments of exactly the calls made after the most recent `startRun` and
before the next `stopRun`. -/
def specRunData (ops : List BOp) : List (List Value) :=
  match afterLastStart ops with
  | none => []
  | some suffix => callArgsOf (suffix.takeWhile (fun o => !o.isStop))

/-- Operational fold computing the recorded-call window of a boundary op
sequence from a given recording flag and already-recorded inputs. -/
def specFrom (a : Bool) (cur : List (List Value)) : List BOp → List (List Value)
  | [] => cur
  | .start :: rest => specFrom true [] rest
  | .stop :: rest => specFrom false cur rest
  | .call args :: rest => specFrom a (if a then cur ++ [args] else cur) rest

/-- Maps a raw function result into the boundary error channel. -/
def liftResult (r : Except String Value) : Except BErr Value :=
  match r with
  | .ok v => .ok v
  | .error m => .error (.thrown m)

/-- Modelled from the spec: a task handler — a deterministic program that
either returns a value, throws, or calls a named boundary with positional
arguments and continues with its result (§4.2, §6). -/
inductive Prog where
  | ret (v : Value) : Prog
  | throwB (msg : String) : Prog
  | callB (name : String) (args : List Value) (k : Value → Prog) : Prog

/-- State of one task run: a (partial) map from boundary names to boundary
states, plus a logical clock feeding call timings. -/
structure RunState where
  bnds : String → Option Boundary
  clock : Nat

/-- State update after a call to boundary `name`. -/
def updState (s : RunState) (name : String) (b2 : Boundary) : RunState :=
  { bnds := fun m => if m = name then some b2 else s.bnds m,
    clock := s.clock + 1 }

/-- Modelled from the spec: handler execution — each boundary call executes (or
replays) and appends a call entry to that boundary's own tape; a boundary error
aborts the handler and propagates (§2, §4.2). -/
def execProg : Prog → RunState → Except BErr Value × RunState
  | .ret v, s => (.ok v, s)
  | .throwB m, s => (.error (.thrown m), s)
  | .callB name args k, s =>
    match s.bnds name with
    | none => (.error (.thrown ("boundary not found: " ++ name)), s)
    | some b =>
      let p := b.call args s.clock
      match p.1 with
      | .ok v => execProg (k v) (updState s name p.2)
      | .error e => (.error e, updState s name p.2)

/-- The sequence of boundary calls (name and positional arguments) a handler
performs, in call order — the reference against which recorded tapes are
checked. -/
def execTrace : Prog → RunState → List (String × List Value)
  | .ret _, _ => []
  | .throwB _, _ => []
  | .callB name args k, s =>
    match s.bnds name with
    | none => []
    | some b =>
      let p := b.call args s.clock
      match p.1 with
      | .ok v => (name, args) :: execTrace (k v) (updState s name p.2)
      | .error _ => [(name, args)]

/-- The call records a handler run appends to the tape of boundary `n`. -/
def execAppends : Prog → RunState → String → List CallRecord
  | .ret _, _, _ => []
  | .throwB _, _, _ => []
  | .callB name args k, s, n =>
    match s.bnds name with
    | none => []
    | some b =>
      let p := b.call args s.clock
      let here := if n = name then p.2.tape.drop b.tape.length else []
      match p.1 with
      | .ok v => here ++ execAppends (k v) (updState s name p.2) n
      | .error _ => here

/-- Constraints a schema field can carry in this development: plain number, a
number with a minimum bound (with its violation message), an array of numbers,
or a string. -/
inductive FieldType where
  | fnumber (minC : Option (Int × String)) : FieldType
  | fnumberArray : FieldType
  | fstring : FieldType

/-- True when every element of the list is a number. -/
def allNums : List Value → Bool
  | [] => true
  | .vnum _ :: rest => allNums rest
  | _ => false

/-- Validation of one field value against its descriptor. -/
def validateField : FieldType → Value → Except String Value
  | .fnumber none, .vnum n => .ok (.vnum n)
  | .fnumber (some p), .vnum n => if n < p.1 then .error p.2 else .ok (.vnum n)
  | .fnumber _, _ => .error "Expected number"
  | .fnumberArray, .varr xs =>
    if allNums xs then .ok (.varr xs) else .error "Expected array of numbers"
  | .fnumberArray, _ => .error "Expected array of numbers"
  | .fstring, .vstr s => .ok (.vstr s)
  | .fstring, _ => .error "Expected string"

/-- Validation of the declared fields against the supplied object entries;
unknown extra entries are dropped (the validated data holds exactly the
declared fields). -/
def validateFields (input : List (String × Value)) :
    List (String × FieldType) → Except String (List (String × Value))
  | [] => .ok []
  | (k, ft) :: rest =>
    match List.lookup k input with
    | none => .error (k ++ " is required")
    | some v =>
      match validateField ft v with
      | .error m => .error m
      | .ok v2 =>
        match validateFields input rest with
        | .error m => .error m
        | .ok vs => .ok ((k, v2) :: vs)

/-- Modelled from the spec: the external schema collaborator, reduced to its
contract `validate(input) -> success(data) | errors` over a declared field
list (§2, §6). -/
structure Schema where
  fields : List (String × FieldType)

/-- Validates an input against the schema: the input must be an object and
every declared field must validate. -/
def Schema.validate (s : Schema) (input : Value) : Except String Value :=
  match input with
  | .vobj entries =>
    match validateFields entries s.fields with
    | .ok vs => .ok (.vobj vs)
    | .error m => .error m
  | _ => .error "Expected object"

/-- Run outcome marker of an execution record. -/
inductive RecType where
  | success : RecType
  | error : RecType

/-- Modelled from the spec: the ExecutionRecord value object — input,
output or error, per-boundary call arrays, outcome type and task name (§3). -/
structure ExecutionRecord where
  input : Value
  output : Option Value
  error : Option String
  boundaries : List (String × List CallRecord)
  type : RecType
  taskName : String

/-- Error taxonomy surfaced by `safeRun`/`safeReplay` (§4.2, §7). -/
inductive TaskError where
  | validationError (msg : String) : TaskError
  | executionError (msg : String) : TaskError
  | replayExhausted : TaskError

/-- Maps a boundary-level error into the task error taxonomy. -/
def taskErrorOf : BErr → TaskError
  | .thrown m => .executionError m
  | .replayExhausted => .replayExhausted

/-- Message recorded for a boundary-level error. -/
def berrMsg : BErr → String
  | .thrown m => m
  | .replayExhausted => "ReplayExhausted"

/-- Modelled from the spec: a Task binds a name, a Schema, a map of named
boundary functions and a handler (§2, §3). -/
structure ForgeTask where
  name : String
  schema : Schema
  boundarySpecs : List (String × (List Value → Except String Value))
  handler : Value → Prog

/-- The declared boundary names of a task, in declaration order. -/
def ForgeTask.declaredNames (t : ForgeTask) : List String :=
  t.boundarySpecs.map Prod.fst

/-- Modelled from the spec: arming every declared boundary for a run — fresh
empty tape, recording active, cursor reset; `replayFor`/`sourceFor` configure
per-boundary replay (§4.2). -/
def ForgeTask.initState (t : ForgeTask) (replayFor : String → Bool)
    (sourceFor : String → List CallRecord) : RunState :=
  { bnds := fun n =>
      match List.lookup n t.boundarySpecs with
      | some f => some
        { fn := f, mockFn := none,
          mode := if replayFor n then .replay else .proxy,
          replaySource := sourceFor n, cursor := 0, active := true, tape := [] }
      | none => none,
    clock := 0 }

/-- Assembles the per-boundary call arrays of an execution record from the
final run state. -/
def ForgeTask.assembleBoundaries (t : ForgeTask) (s : RunState) :
    List (String × List CallRecord) :=
  t.declaredNames.map (fun n => (n, match s.bnds n with | some b => b.tape | none => []))

/-- Modelled from the spec: a schema with no declared fields normalizes an
absent input to an empty structure before validation (§4.2). -/
def ForgeTask.normalizeInput (t : ForgeTask) : Option Value → Value
  | none => if t.schema.fields.isEmpty then .vobj [] else .vnull
  | some v => v

/-- Modelled from the spec: `safeRun` — validate (short-circuiting to an error
record with empty boundary arrays), execute the handler against armed
boundaries, and assemble the record; never throws, returning the
`[output|null, error|null, record]` triple (§4.2). -/
def ForgeTask.safeRun (t : ForgeTask) (input : Option Value) :
    Option Value × Option TaskError × ExecutionRecord :=
  let raw := t.normalizeInput input
  match t.schema.validate raw with
  | .error msg =>
    (none, some (.validationError msg),
     { input := raw, output := none, error := some msg,
       boundaries := t.declaredNames.map (fun n => (n, [])),
       type := .error, taskName := t.name })
  | .ok data =>
    let p := execProg (t.handler data) (t.initState (fun _ => false) (fun _ => []))
    match p.1 with
    | .ok v =>
      (some v, none,
       { input := data, output := some v, error := none,
         boundaries := t.assembleBoundaries p.2, type := .success, taskName := t.name })
    | .error e =>
      (none, some (taskErrorOf e),
       { input := data, output := none, error := some (berrMsg e),
         boundaries := t.assembleBoundaries p.2, type := .error, taskName := t.name })

/-- Modelled from the spec: `safeReplay` — re-invokes the handler on
`priorRecord.input` (validation skipped), boundaries configured `'replay'`
consuming the prior record's entries via the cursor; the produced record's
input equals the prior record's input (§4.2). -/
def ForgeTask.safeReplay (t : ForgeTask) (prior : ExecutionRecord) (cfg : List (String × Bool)) :
    Option Value × Option TaskError × ExecutionRecord :=
  let s0 := t.initState (fun n => (List.lookup n cfg).getD false)
    (fun n => (List.lookup n prior.boundaries).getD [])
  let p := execProg (t.handler prior.input) s0
  match p.1 with
  | .ok v =>
    (some v, none,
     { input := prior.input, output := some v, error := none,
       boundaries := t.assembleBoundaries p.2, type := .success, taskName := t.name })
  | .error e =>
    (none, some (taskErrorOf e),
     { input := prior.input, output := none, error := some (berrMsg e),
       boundaries := t.assembleBoundaries p.2, type := .error, taskName := t.name })

/-- Replay configuration selecting `'replay'` for every declared boundary. -/
def ForgeTask.allReplay (t : ForgeTask) : List (String × Bool) :=
  t.declaredNames.map (fun n => (n, true))

/-- The same task with every declared boundary function replaced — used to
state that replay never consults the live functions. -/
def ForgeTask.withFns (t : ForgeTask) (g : String → List Value → Except String Value) : ForgeTask :=
  { t with boundarySpecs := t.boundarySpecs.map (fun p => (p.1, g p.1)) }

/-- The boundary calls a `safeRun` performs: none on validation failure,
otherwise the handler's call trace. -/
def ForgeTask.runTrace (t : ForgeTask) (input : Option Value) : List (String × List Value) :=
  match t.schema.validate (t.normalizeInput input) with
  | .error _ => []
  | .ok data => execTrace (t.handler data) (t.initState (fun _ => false) (fun _ => []))

/-- Field access on an object value. -/
def getField : Value → String → Option Value
  | .vobj fs, k => List.lookup k fs
  | _, _ => none

/-- Scenario A/B boundary: doubles its numeric argument. -/
def fetchDataFn : List Value → Except String Value
  | [Value.vnum n] => .ok (.vnum (n * 2))
  | _ => .error "bad args"

/-- Scenario B boundary: doubles, but throws on negative input. -/
def fetchDataGuardFn : List Value → Except String Value
  | [Value.vnum n] =>
    if n < 0 then .error "Value cannot be negative" else .ok (.vnum (n * 2))
  | _ => .error "bad args"

/-- Scenario A/B handler: `{result: await fetchData(value)}`. -/
def scenarioHandler (input : Value) : Prog :=
  match getField input "value" with
  | some v => .callB "fetchData" [v] (fun out => .ret (.vobj [("result", out)]))
  | none => .throwB "no value"

/-- Schema `{value: number}`. -/
def numberSchema : Schema := { fields := [("value", .fnumber none)] }

/-- Schema `{value: number.min(1, "Value must be positive")}`. -/
def minSchema : Schema :=
  { fields := [("value", .fnumber (some (1, "Value must be positive")))] }

/-- Schema declaring zero fields. -/
def emptySchema : Schema := { fields := [] }

/-- Scenario A task: doubling boundary, object-wrapping handler. -/
def scenarioATask : ForgeTask :=
  { name := "successTask", schema := numberSchema,
    boundarySpecs := [("fetchData", fetchDataFn)], handler := scenarioHandler }

/-- Scenario B task: the boundary throws on negative values. -/
def scenarioBTask : ForgeTask :=
  { name := "errorTask", schema := numberSchema,
    boundarySpecs := [("fetchData", fetchDataGuardFn)], handler := scenarioHandler }

/-- Task whose schema rejects non-positive values. -/
def validationDemoTask : ForgeTask :=
  { name := "validationTask", schema := minSchema,
    boundarySpecs := [("fetchData", fetchDataFn)], handler := scenarioHandler }

/-- Boundary returning a fixed string. -/
def getDataFn : List Value → Except String Value := fun _ => .ok (.vstr "test-data")

/-- Handler for the replay scenario: one `getData` call wrapped into an
object. -/
def replayDemoHandler (_input : Value) : Prog :=
  .callB "getData" [] (fun d => .ret (.vobj [("data", d)]))

/-- Empty-schema task with a single `getData` boundary. -/
def replayDemoTask : ForgeTask :=
  { name := "replayTask", schema := emptySchema,
    boundarySpecs := [("getData", getDataFn)], handler := replayDemoHandler }

def lbrace : Char := '\x7b'

def rbrace : Char := '\x7d'

/-- Digit character for a single decimal digit. -/
def digitChar : Nat → Char
  | 0 => '0' | 1 => '1' | 2 => '2' | 3 => '3' | 4 => '4'
  | 5 => '5' | 6 => '6' | 7 => '7' | 8 => '8' | 9 => '9'
  | _ => '*'

/-- Decimal digits of a natural number, most significant first (fuel-driven). -/
def natToCharsAux : Nat → Nat → List Char
  | 0, _ => []
  | fuel + 1, n =>
    if n < 10 then [digitChar n]
    else natToCharsAux fuel (n / 10) ++ [digitChar (n % 10)]

/-- Decimal representation of a natural number. -/
def natToChars (n : Nat) : List Char := natToCharsAux (n + 1) n

/-- JSON text of an integer. -/
def encInt (i : Int) : List Char :=
  if i < 0 then '-' :: natToChars (-i).toNat else natToChars i.toNat

/-- True for the characters `0`-`9`. -/
def isDigitC (c : Char) : Bool := decide (48 ≤ c.toNat) && decide (c.toNat ≤ 57)

/-- Numeric value of a digit character. -/
def digitVal (c : Char) : Nat := c.toNat - 48

/-- Consumes leading digits, accumulating their value. -/
def parseDigits : List Char → Nat → Nat × List Char
  | [], acc => (acc, [])
  | c :: cs, acc =>
    if isDigitC c then parseDigits cs (acc * 10 + digitVal c) else (acc, c :: cs)

/-- Parses a nonempty digit run into a natural number. -/
def parseNat : List Char → Option (Nat × List Char)
  | c :: cs => if isDigitC c then some (parseDigits cs (digitVal c)) else none
  | [] => none

/-- Parses an optionally negated digit run into an integer. -/
def parseIntChars : List Char → Option (Int × List Char)
  | [] => none
  | c :: cs =>
    if c = '-' then
      match parseNat cs with
      | some p => some (-(p.1 : Int), p.2)
      | none => none
    else
      match parseNat (c :: cs) with
      | some p => some ((p.1 : Int), p.2)
      | none => none

/-- JSON string escaping of one character (quote, backslash, newline). -/
def escChar (c : Char) : List Char :=
  if c = '"' then ['\\', '"']
  else if c = '\\' then ['\\', '\\']
  else if c = '\n' then ['\\', 'n']
  else [c]

/-- JSON string escaping of a character list. -/
def escChars : List Char → List Char
  | [] => []
  | c :: cs => escChar c ++ escChars cs

/-- JSON text of a string, quotes included. -/
def encStr (s : String) : List Char := '"' :: (escChars s.data ++ ['"'])

/-- Unescaping of one escape character. -/
def unescChar (c : Char) : Option Char :=
  if c = '"' then some '"'
  else if c = '\\' then some '\\'
  else if c = 'n' then some '\n'
  else none

/-- Parses a JSON string body up to and including the closing quote. -/
def parseStrBody : List Char → Option (List Char × List Char)
  | [] => none
  | c :: rest =>
    if c = '"' then some ([], rest)
    else if c = '\\' then
      match rest with
      | [] => none
      | c2 :: rest2 =>
        match unescChar c2 with
        | none => none
        | some c3 =>
          match parseStrBody rest2 with
          | none => none
          | some p => some (c3 :: p.1, p.2)
    else
      match parseStrBody rest with
      | none => none
      | some p => some (c :: p.1, p.2)

/-- Matches an expected literal character sequence. -/
def expectChars : List Char → List Char → Option (List Char)
  | [], cs => some cs
  | _ :: _, [] => none
  | e :: es, c :: cs => if c = e then expectChars es cs else none

/-- True when the input starts with a digit. -/
def digitStart : List Char → Bool
  | c :: _ => isDigitC c
  | [] => false

mutual

/-- Canonical JSON text of a value (no whitespace, fields in stored order). -/
def encVal : Value → List Char
  | .vnull => ['n', 'u', 'l', 'l']
  | .vbool true => ['t', 'r', 'u', 'e']
  | .vbool false => ['f', 'a', 'l', 's', 'e']
  | .vnum i => encInt i
  | .vstr s => encStr s
  | .varr [] => ['[', ']']
  | .varr (x :: xs) => '[' :: encElems x xs
  | .vobj [] => [lbrace, rbrace]
  | .vobj (f :: fs) => lbrace :: encFields f fs
termination_by v => sizeOf v

/-- JSON text of nonempty array elements, closing bracket included. -/
def encElems : Value → List Value → List Char
  | x, [] => encVal x ++ [']']
  | x, y :: ys => encVal x ++ ',' :: encElems y ys
termination_by x xs => sizeOf x + sizeOf xs + 1

/-- JSON text of nonempty object fields, closing brace included. -/
def encFields : (String × Value) → List (String × Value) → List Char
  | (k, v), [] => encStr k ++ ':' :: (encVal v ++ [rbrace])
  | (k, v), f :: fs => encStr k ++ ':' :: (encVal v ++ ',' :: encFields f fs)
termination_by kv fs => sizeOf kv + sizeOf fs

end

mutual

/-- Fuel-driven parser for one canonical JSON value. -/
def parseVal : Nat → List Char → Option (Value × List Char)
  | 0, _ => none
  | _ + 1, [] => none
  | fuel + 1, c :: cs =>
    if c = 'n' then
      match expectChars ['u', 'l', 'l'] cs with
      | some r => some (.vnull, r)
      | none => none
    else if c = 't' then
      match expectChars ['r', 'u', 'e'] cs with
      | some r => some (.vbool true, r)
      | none => none
    else if c = 'f' then
      match expectChars ['a', 'l', 's', 'e'] cs with
      | some r => some (.vbool false, r)
      | none => none
    else if c = '"' then
      match parseStrBody cs with
      | some p => some (.vstr (String.mk p.1), p.2)
      | none => none
    else if c = '[' then
      match cs with
      | [] => none
      | c2 :: cs2 =>
        if c2 = ']' then some (.varr [], cs2)
        else
          match parseElems fuel cs with
          | some p => some (.varr p.1, p.2)
          | none => none
    else if c = lbrace then
      match cs with
      | [] => none
      | c2 :: cs2 =>
        if c2 = rbrace then some (.vobj [], cs2)
        else
          match parseFields fuel cs with
          | some p => some (.vobj p.1, p.2)
          | none => none
    else
      match parseIntChars (c :: cs) with
      | some p => some (.vnum p.1, p.2)
      | none => none

/-- Fuel-driven parser for the elements of a nonempty JSON array. -/
def parseElems : Nat → List Char → Option (List Value × List Char)
  | 0, _ => none
  | fuel + 1, cs =>
    match parseVal fuel cs with
    | none => none
    | some vp =>
      match vp.2 with
      | [] => none
      | c :: cs2 =>
        if c = ',' then
          match parseElems fuel cs2 with
          | none => none
          | some ep => some (vp.1 :: ep.1, ep.2)
        else if c = ']' then some ([vp.1], cs2)
        else none

/-- Fuel-driven parser for the fields of a nonempty JSON object. -/
def parseFields : Nat → List Char → Option (List (String × Value) × List Char)
  | 0, _ => none
  | fuel + 1, cs =>
    match cs with
    | [] => none
    | c0 :: cs0 =>
      if c0 = '"' then
        match parseStrBody cs0 with
        | none => none
        | some kp =>
          match kp.2 with
          | ':' :: cs2 =>
            match parseVal fuel cs2 with
            | none => none
            | some vp =>
              match vp.2 with
              | [] => none
              | c :: cs3 =>
                if c = ',' then
                  match parseFields fuel cs3 with
                  | none => none
                  | some fp => some ((String.mk kp.1, vp.1) :: fp.1, fp.2)
                else if c = rbrace then some ([(String.mk kp.1, vp.1)], cs3)
                else none
          | _ => none
      else none

end

mutual

/-- Size measure of a value, bounding the parser fuel it needs. -/
def vsize : Value → Nat
  | .vnull => 1
  | .vbool _ => 1
  | .vnum _ => 1
  | .vstr _ => 1
  | .varr [] => 1
  | .varr (x :: xs) => 1 + esizeAux x xs
  | .vobj [] => 1
  | .vobj (f :: fs) => 1 + fsizeAux f fs
termination_by v => sizeOf v

/-- Size measure of nonempty array elements. -/
def esizeAux : Value → List Value → Nat
  | x, [] => 1 + vsize x
  | x, y :: ys => 1 + vsize x + esizeAux y ys
termination_by x xs => sizeOf x + sizeOf xs + 1

/-- Size measure of nonempty object fields. -/
def fsizeAux : (String × Value) → List (String × Value) → Nat
  | (k, v), [] => 1 + vsize v
  | (k, v), f :: fs => 1 + vsize v + fsizeAux f fs
termination_by kv fs => sizeOf kv + sizeOf fs

end

/-- Accumulated decimal value of a digit-character run. -/
def digitsVal (ds : List Char) (acc : Nat) : Nat :=
  ds.foldl (fun a c => a * 10 + digitVal c) acc

/-- Outcome of the run a log item records. -/
inductive Outcome where
  | succ (output : Value) : Outcome
  | fail (errorMsg : String) : Outcome

/-- Modelled from the spec: one serialized boundary call entry with explicit
`output`/`error` fields, `null` standing for an absent one (§4.3 push
normalization, §6 file format). -/
structure SerCall where
  input : List Value
  output : Value
  error : Value

/-- Modelled from the spec: a LogItem — an ExecutionRecord tagged with a task
name, as stored in a RecordTape (§3, §6). -/
structure LogItem where
  name : String
  input : Value
  outcome : Outcome
  boundaries : List (String × List SerCall)

/-- JSON value of one serialized boundary call. -/
def serCallToValue (c : SerCall) : Value :=
  .vobj [("input", .varr c.input), ("output", c.output), ("error", c.error)]

/-- JSON value of a log item: `name`, `type`, `input`, then `output` on
success or `error` on failure, then `boundaries` (§6 field list). -/
def logItemToValue (li : LogItem) : Value :=
  .vobj ([("name", .vstr li.name),
          ("type", .vstr (match li.outcome with | .succ _ => "success" | .fail _ => "error")),
          ("input", li.input)]
    ++ (match li.outcome with
        | .succ o => [("output", o)]
        | .fail e => [("error", .vstr e)])
    ++ [("boundaries",
          .vobj (li.boundaries.map (fun p => (p.1, .varr (p.2.map serCallToValue)))))])

/-- Partial inverse of `serCallToValue`. -/
def valueToSerCall : Value → Option SerCall
  | .vobj [("input", .varr is), ("output", o), ("error", e)] =>
    some { input := is, output := o, error := e }
  | _ => none

/-- Partial inverse of `serCallToValue` on lists. -/
def valuesToSerCalls : List Value → Option (List SerCall)
  | [] => some []
  | v :: vs =>
    match valueToSerCall v, valuesToSerCalls vs with
    | some c, some cs => some (c :: cs)
    | _, _ => none

/-- Partial inverse of the per-boundary serialization. -/
def valueToBoundaries : List (String × Value) → Option (List (String × List SerCall))
  | [] => some []
  | (k, .varr vs) :: rest =>
    match valuesToSerCalls vs, valueToBoundaries rest with
    | some cs, some bs => some ((k, cs) :: bs)
    | _, _ => none
  | _ => none

/-- Partial inverse of `logItemToValue`. -/
def valueToLogItem : Value → Option LogItem
  | .vobj (("name", .vstr nm) :: ("type", .vstr ty) :: ("input", inp) :: rest) =>
    if ty = "success" then
      match rest with
      | [("output", o), ("boundaries", .vobj bs)] =>
        match valueToBoundaries bs with
        | some bs2 => some { name := nm, input := inp, outcome := .succ o, boundaries := bs2 }
        | none => none
      | _ => none
    else if ty = "error" then
      match rest with
      | [("error", .vstr e), ("boundaries", .vobj bs)] =>
        match valueToBoundaries bs with
        | some bs2 => some { name := nm, input := inp, outcome := .fail e, boundaries := bs2 }
        | none => none
      | _ => none
    else none
  | _ => none

/-- JSON line text of one log item (no trailing newline). -/
def encodeLogItem (li : LogItem) : List Char := encVal (logItemToValue li)

/-- Newline-delimited JSON text of a log: one object per line, a trailing
newline after every record (§6). -/
def encodeLines : List LogItem → List Char
  | [] => []
  | li :: lis => encodeLogItem li ++ '\n' :: encodeLines lis

/-- Parses newline-delimited JSON lines into log items. -/
def parseLogLines : Nat → List Char → Option (List LogItem)
  | 0, _ => none
  | _ + 1, [] => some []
  | fuel + 1, cs =>
    match parseVal (cs.length + 1) cs with
    | none => none
    | some p =>
      match p.2 with
      | c :: cs2 =>
        if c = '\n' then
          match valueToLogItem p.1, parseLogLines fuel cs2 with
          | some li, some lis => some (li :: lis)
          | _, _ => none
        else none
      | [] => none

/-- Modelled from the spec: the RecordTape — a path and an ordered in-memory
list of LogItems (§3, §4.3). -/
structure RecordTape where
  path : String
  log : List LogItem

/-- Fresh tape at a path (empty in-memory list). -/
def RecordTape.make (p : String) : RecordTape := { path := p, log := [] }

/-- Modelled from the spec: `getLog()` — read-only ordered view, oldest
first (§4.3). -/
def RecordTape.getLog (t : RecordTape) : List LogItem := t.log

/-- Modelled from the spec: `getLength()` (§4.3). -/
def RecordTape.getLength (t : RecordTape) : Nat := t.log.length

/-- Modelled from the spec: `shift()` — caller-driven FIFO eviction of the
oldest entry (§4.3). -/
def RecordTape.shift (t : RecordTape) : RecordTape := { t with log := t.log.tail }

/-- Modelled from the spec: push normalization of one recorded boundary call —
explicit `output`/`error` fields filled with `null` when absent (§4.3). -/
def normalizeCall (c : CallRecord) : SerCall :=
  { input := c.input, output := c.output.getD .vnull,
    error := match c.error with | some m => .vstr m | none => .vnull }

/-- Modelled from the spec: shaping an ExecutionRecord into a LogItem under a
task name, with per-call normalization (§4.3). -/
def toLogItem (name : String) (r : ExecutionRecord) : LogItem :=
  { name := name, input := r.input,
    outcome := match r.type with
      | .success => .succ (r.output.getD .vnull)
      | .error => .fail (r.error.getD ""),
    boundaries := r.boundaries.map (fun p => (p.1, p.2.map normalizeCall)) }

/-- Modelled from the spec: `push(name, record)` appends the normalized
LogItem to the in-memory list (§4.3). -/
def RecordTape.push (t : RecordTape) (name : String) (r : ExecutionRecord) : RecordTape :=
  { t with log := t.log ++ [toLogItem name r] }

/-- Modelled from the spec: `addLogItem(name, logItem)` appends an
already-shaped LogItem (§4.3). -/
def RecordTape.addLogItem (t : RecordTape) (name : String) (li : LogItem) : RecordTape :=
  { t with log := t.log ++ [{ li with name := name }] }

/-- Modelled from the spec: `stringify()` — exactly the text `save` writes,
one JSON object per line with a trailing newline, no I/O (§4.3). -/
def RecordTape.stringify (t : RecordTape) : String := String.mk (encodeLines t.log)

/-- File-system state: existing directories and a path-to-content map. -/
structure FS where
  dirs : List String
  files : List (String × String)

/-- Content of a file, when present. -/
def FS.readFile (fs : FS) (p : String) : Option String := List.lookup p fs.files

/-- Creates or overwrites a file. -/
def FS.writeFile (fs : FS) (p : String) (content : String) : FS :=
  { fs with files := (p, content) :: fs.files }

/-- Characters before the last slash of a path, when a slash exists. -/
def beforeLastSlash : List Char → Option (List Char)
  | [] => none
  | c :: cs =>
    match beforeLastSlash cs with
    | some r => some (c :: r)
    | none => if c = '/' then some [] else none

/-- Parent directory of a path (`"."` when the path has no slash). -/
def parentDir (p : String) : String :=
  match beforeLastSlash p.data with
  | some r => String.mk r
  | none => "."

/-- Modelled from the spec: `save()` writes the entire in-memory list to
`path + ".log"`, failing only when the parent directory is absent; a missing
file is created (§4.3). -/
def RecordTape.save (t : RecordTape) (fs : FS) : Except String FS :=
  if parentDir (t.path ++ ".log") ∈ fs.dirs then
    .ok (fs.writeFile (t.path ++ ".log") t.stringify)
  else .error "Folder doesn't exists"

/-- Modelled from the spec: `saveSync()` — behaviour identical to `save()`
(§4.3). -/
def RecordTape.saveSync (t : RecordTape) (fs : FS) : Except String FS :=
  if parentDir (t.path ++ ".log") ∈ fs.dirs then
    .ok (fs.writeFile (t.path ++ ".log") t.stringify)
  else .error "Folder doesn't exists"

/-- Modelled from the spec: `load()` parses the backing newline-delimited
JSON file and prepends its items ahead of anything already in memory; a
missing file loads nothing (§4.3). -/
def RecordTape.load (t : RecordTape) (fs : FS) : Except String RecordTape :=
  match fs.readFile (t.path ++ ".log") with
  | none => .ok t
  | some content =>
    match parseLogLines (content.data.length + 1) content.data with
    | some items => .ok { t with log := items ++ t.log }
    | none => .error "Invalid tape file"

/-- Configuration accepted by the `HiveLogClient` constructor
(`HiveLogClientConfig` in `hive-sdk/src/index.ts`). -/
structure HiveLogClientConfig where
  projectName : String
  projectUuid : Option String
  apiKey : Option String
  apiSecret : Option String
  host : Option String
  metadata : List (String × String)

/-- Relevant process environment variables read by the constructor. -/
structure EnvVars where
  hiveApiKey : Option String
  hiveApiSecret : Option String
  hiveHost : Option String

/-- State of a `HiveLogClient` (`hive-sdk/src/index.ts`): credentials, host,
project identity, base metadata and the silent-mode flag. -/
structure HiveLogClient where
  apiKey : Option String
  apiSecret : Option String
  host : Option String
  projectName : String
  projectUuid : Option String
  baseMetadata : List (String × String)
  isInitialized : Bool

/-- The `HiveLogClient` constructor: config values fall back to environment
variables; with either credential missing the client enters silent mode
(`isInitialized = false`, null credentials), otherwise it is initialized with
the resolved host (defaulting to the public one). -/
def mkHiveLogClient (config : HiveLogClientConfig) (env : EnvVars) : HiveLogClient :=
  match config.apiKey <|> env.hiveApiKey, config.apiSecret <|> env.hiveApiSecret with
  | some k, some s =>
    { apiKey := some k, apiSecret := some s,
      host := some (((config.host <|> env.hiveHost)).getD "https://www.forgehive.cloud"),
      projectName := config.projectName, projectUuid := config.projectUuid,
      baseMetadata := config.metadata, isInitialized := true }
  | _, _ =>
    { apiKey := none, apiSecret := none, host := none,
      projectName := config.projectName, projectUuid := config.projectUuid,
      baseMetadata := config.metadata, isInitialized := false }

/-- Outcome of the one HTTP request a client method performs, supplied as an
oracle: the repository's code does not control the network. -/
inductive HttpOutcome where
  | success (data : Value) : HttpOutcome
  | failure (msg : String) : HttpOutcome

/-- Result alphabet of `sendLog`/`sendLogByUuid`. -/
inductive SendResult where
  | success : SendResult
  | error : SendResult
  | silent : SendResult
  | apiSuccess (data : Value) : SendResult

/-- True when the response body is an object carrying a `uuid` field. -/
def hasUuidField : Value → Bool
  | .vobj fs => (List.lookup "uuid" fs).isSome
  | _ => false

/-- Embeds `HiveLogClient.sendLog`: silent without credentials (no request is
examined), `'error'` when the request fails, the response payload when it
carries a uuid, `'success'` otherwise; the method never throws. -/
def HiveLogClient.sendLog (c : HiveLogClient) (_record : ExecutionRecord)
    (http : HttpOutcome) : SendResult :=
  if !c.isInitialized then .silent
  else
    match http with
    | .failure _ => .error
    | .success data => if hasUuidField data then .apiSuccess data else .success

/-- Embeds `HiveLogClient.sendLogByUuid`: silent without credentials,
`'error'` without a project uuid or on request failure; never throws. -/
def HiveLogClient.sendLogByUuid (c : HiveLogClient) (_record : ExecutionRecord)
    (_taskUuid : String) (http : HttpOutcome) : SendResult :=
  if !c.isInitialized then .silent
  else if c.projectUuid.isNone then .error
  else
    match http with
    | .failure _ => .error
    | .success data => if hasUuidField data then .apiSuccess data else .success

/-- Embeds `HiveLogClient.getLog`: throws on missing credentials, otherwise
returns the response data or `null` on request failure. -/
def HiveLogClient.getLog (c : HiveLogClient) (_taskName _uuid : String)
    (http : HttpOutcome) : Except String (Option Value) :=
  if !c.isInitialized then
    .error "Missing Hive API credentials or host, get them at https://www.forgehive.cloud"
  else
    match http with
    | .failure _ => .ok none
    | .success data => .ok (some data)

/-- Quality payload of `setQuality`. -/
structure Quality where
  score : Int
  reason : String
  suggestions : String

/-- Embeds `HiveLogClient.setQuality`: throws on missing credentials,
otherwise reports whether the request succeeded. -/
def HiveLogClient.setQuality (c : HiveLogClient) (_taskName _uuid : String)
    (_quality : Quality) (http : HttpOutcome) : Except String Bool :=
  if !c.isInitialized then
    .error "Missing Hive API credentials or host, get them at https://www.forgehive.cloud"
  else
    match http with
    | .failure _ => .ok false
    | .success _ => .ok true

theorem specFrom_no_start (ops : List BOp) (hns : ∀ o ∈ ops, o.isStart = false) :
    ∀ a cur, specFrom a cur ops =
      if a then cur ++ callArgsOf (ops.takeWhile (fun o => !o.isStop)) else cur := by
  induction ops with
  | nil => intro a cur; simp [specFrom, callArgsOf]
  | cons op rest ih =>
    intro a cur
    have hop := hns op (by simp)
    have hrest : ∀ o ∈ rest, o.isStart = false := fun o ho => hns o (by simp [ho])
    cases op with
    | start => simp [BOp.isStart] at hop
    | stop =>
      simp only [specFrom, List.takeWhile]
      rw [ih hrest]
      simp [BOp.isStop, callArgsOf]
    | call args =>
      simp only [specFrom, List.takeWhile]
      rw [ih hrest]
      cases a <;> simp [BOp.isStop, callArgsOf]

theorem afterLastStart_eq_none (ops : List BOp) :
    afterLastStart ops = none ↔ ∀ o ∈ ops, o.isStart = false := by
  induction ops with
  | nil => simp [afterLastStart]
  | cons op rest ih =>
    cases hals : afterLastStart rest with
    | some s =>
      simp only [afterLastStart, hals]
      constructor
      · intro h; exact absurd h (by simp)
      · intro h
        have := (ih.mpr (fun o ho => h o (List.mem_cons_of_mem _ ho)))
        rw [this] at hals; exact absurd hals (by simp)
    | none =>
      simp only [afterLastStart, hals]
      constructor
      · intro h
        intro o ho
        rcases List.mem_cons.mp ho with h1 | h2
        · rw [← h1] at h
          cases hx : o.isStart
          · rfl
          · simp [hx] at h
        · exact ih.mp hals o h2
      · intro h
        have := h op (by simp)
        simp [this]

theorem specFrom_eq_specRunData (ops : List BOp) :
    ∀ a cur, specFrom a cur ops =
      match afterLastStart ops with
      | none => if a then cur ++ callArgsOf (ops.takeWhile (fun o => !o.isStop)) else cur
      | some suffix => callArgsOf (suffix.takeWhile (fun o => !o.isStop)) := by
  induction ops with
  | nil => intro a cur; simp [specFrom, afterLastStart, callArgsOf]
  | cons op rest ih =>
    intro a cur
    cases hals : afterLastStart rest with
    | some s =>
      have hstep : afterLastStart (op :: rest) = some s := by
        simp [afterLastStart, hals]
      rw [hstep]
      cases op with
      | start => simpa [specFrom, hals] using ih true []
      | stop => simpa [specFrom, hals] using ih false cur
      | call args => simpa [specFrom, hals] using ih a (if a then cur ++ [args] else cur)
    | none =>
      have hnostart : ∀ o ∈ rest, o.isStart = false :=
        (afterLastStart_eq_none rest).mp hals
      cases op with
      | start =>
        have hstep : afterLastStart (BOp.start :: rest) = some rest := by
          simp [afterLastStart, hals, BOp.isStart]
        rw [hstep]
        simp only [specFrom]
        rw [specFrom_no_start rest hnostart]
        simp
      | stop =>
        have hstep : afterLastStart (BOp.stop :: rest) = none := by
          simp [afterLastStart, hals, BOp.isStart]
        rw [hstep]
        simp only [specFrom]
        rw [specFrom_no_start rest hnostart]
        simp [List.takeWhile, BOp.isStop, callArgsOf]
      | call args =>
        have hstep : afterLastStart (BOp.call args :: rest) = none := by
          simp [afterLastStart, hals, BOp.isStart]
        rw [hstep]
        simp only [specFrom]
        rw [specFrom_no_start rest hnostart]
        cases a <;> simp [List.takeWhile, BOp.isStop, callArgsOf]

theorem runOps_proxy (ops : List BOp) :
    ∀ b clock, b.mode = .proxy →
      (runOps b clock ops).1 =
        (callArgsOf ops).map (fun a => liftResult ((b.mockFn.getD b.fn) a))
      ∧ ((runOps b clock ops).2.tape).map (fun c => c.input) =
        specFrom b.active (b.tape.map (fun c => c.input)) ops := by
  induction ops with
  | nil => intro b clock _; simp [runOps, callArgsOf, specFrom]
  | cons op rest ih =>
    intro b clock hmode
    cases op with
    | start =>
      have := ih b.startRun clock (by simpa [Boundary.startRun] using hmode)
      simpa [runOps, callArgsOf, specFrom, Boundary.startRun] using this
    | stop =>
      have := ih b.stopRun clock (by simpa [Boundary.stopRun] using hmode)
      simpa [runOps, callArgsOf, specFrom, Boundary.stopRun] using this
    | call args =>
      cases hres : (b.mockFn.getD b.fn) args with
      | ok v =>
        have hcall : b.call args clock =
            (.ok v, { b with tape := if b.active then b.tape ++
              [{ input := args, output := some v, error := none,
                 timing := { startTime := clock, endTime := clock + 1, duration := 1 } }]
              else b.tape }) := by
          simp [Boundary.call, hmode, hres]
        have := ih ({ b with tape := if b.active then b.tape ++
              [{ input := args, output := some v, error := none,
                 timing := { startTime := clock, endTime := clock + 1, duration := 1 } }]
              else b.tape }) (clock + 1) hmode
        refine ⟨?_, ?_⟩
        · simp only [runOps, hcall, callArgsOf, List.filterMap, liftResult]
          rw [this.1]
          simp [callArgsOf, hres, liftResult]
        · simp only [runOps, hcall]
          rw [this.2]
          cases ha : b.active <;> simp [specFrom, ha]
      | error m =>
        have hcall : b.call args clock =
            (.error (.thrown m), { b with tape := if b.active then b.tape ++
              [{ input := args, output := none, error := some m,
                 timing := { startTime := clock, endTime := clock + 1, duration := 1 } }]
              else b.tape }) := by
          simp [Boundary.call, hmode, hres]
        have := ih ({ b with tape := if b.active then b.tape ++
              [{ input := args, output := none, error := some m,
                 timing := { startTime := clock, endTime := clock + 1, duration := 1 } }]
              else b.tape }) (clock + 1) hmode
        refine ⟨?_, ?_⟩
        · simp only [runOps, hcall, callArgsOf, List.filterMap, liftResult]
          rw [this.1]
          simp [callArgsOf, hres, liftResult]
        · simp only [runOps, hcall]
          rw [this.2]
          cases ha : b.active <;> simp [specFrom, ha]

/-- C3: over any sequence of boundary operations, a call lands on the tape
exactly when it occurs after the most recent `startRun` and before the next
`stopRun` (`startRun` clears the prior tape, `stopRun` halts recording
without clearing), while every call — recorded or not — still executes the
wrapped function and returns its result. -/
theorem c3_recording_window_scoped (f : List Value → Except String Value)
    (ops : List BOp) :
    (((runOps (createBoundary f) 0 ops).2.getRunData).map (fun c => c.input)
        = specRunData ops)
    ∧ (runOps (createBoundary f) 0 ops).1 = (callArgsOf ops).map (fun a => liftResult (f a)) := by
  have h := runOps_proxy ops (createBoundary f) 0 (by simp [createBoundary])
  refine ⟨?_, ?_⟩
  · rw [Boundary.getRunData, h.2]
    have := specFrom_eq_specRunData ops false []
    simp only [createBoundary, List.map_nil] at *
    rw [this]
    cases hals : afterLastStart ops <;> simp [specRunData, hals]
  · rw [h.1]
    simp [createBoundary]

/-- C5: with schema `{value: number}`, boundary `fetchData = v => v*2` and a
handler returning `{result: await fetchData(value)}`, `safeRun({value:5})`
yields `[{result:10}, null, record]` whose `boundaries.fetchData` is the
one-element array `[{input:[5], output:10, timing:{startTime, endTime,
duration}}]`. -/
theorem c5_scenario_a_success :
    scenarioATask.safeRun (some (.vobj [("value", .vnum 5)])) =
      (some (.vobj [("result", .vnum 10)]), none,
       { input := .vobj [("value", .vnum 5)],
         output := some (.vobj [("result", .vnum 10)]),
         error := none,
         boundaries := [("fetchData",
           [{ input := [.vnum 5], output := some (.vnum 10), error := none,
              timing := { startTime := 0, endTime := 1, duration := 1 } }])],
         type := .success, taskName := "successTask" }) := rfl

/-- C6: when the `fetchData` boundary throws `"Value cannot be negative"`,
`safeRun({value:-5})` yields `[null, error, record]` with the original message
preserved in the error element, `record.type = 'error'`, the recorded call
entry carrying the message in its `error` field and no output. -/
theorem c6_scenario_b_boundary_throw :
    scenarioBTask.safeRun (some (.vobj [("value", .vnum (-5))])) =
      (none, some (.executionError "Value cannot be negative"),
       { input := .vobj [("value", .vnum (-5))],
         output := none,
         error := some "Value cannot be negative",
         boundaries := [("fetchData",
           [{ input := [.vnum (-5)], output := none,
              error := some "Value cannot be negative",
              timing := { startTime := 0, endTime := 1, duration := 1 } }])],
         type := .error, taskName := "errorTask" }) := rfl

theorem lookup_map_self {β : Type} (l : List String) (f : String → β) (n : String)
    (h : n ∈ l) : List.lookup n (l.map fun m => (m, f m)) = some (f n) := by
  induction l with
  | nil => simp at h
  | cons a rest ih =>
    by_cases ha : n = a
    · subst ha; simp [List.lookup]
    · have hmem : n ∈ rest := by
        rcases List.mem_cons.mp h with h1 | h2
        · exact absurd h1 ha
        · exact h2
      have hbeq : (n == a) = false := by simp [ha]
      simp [List.lookup, hbeq, ih hmem]

theorem withFns_declaredNames (t : ForgeTask) (g : String → List Value → Except String Value) :
    (t.withFns g).declaredNames = t.declaredNames := by
  simp [ForgeTask.withFns, ForgeTask.declaredNames, List.map_map, Function.comp_def]

/-- C2: an input failing schema validation makes `safeRun` return
`[null, ValidationError, record]` with `record.type = 'error'`, every declared
boundary mapped to an empty array, no boundary call performed, and a result
that does not depend on the live boundary functions at all. -/
theorem c2_validation_short_circuit (t : ForgeTask) (i : Option Value) (msg : String)
    (h : t.schema.validate (t.normalizeInput i) = .error msg) :
    (t.safeRun i).1 = none
    ∧ (t.safeRun i).2.1 = some (.validationError msg)
    ∧ (t.safeRun i).2.2.type = .error
    ∧ (∀ n ∈ t.declaredNames, List.lookup n (t.safeRun i).2.2.boundaries = some [])
    ∧ t.runTrace i = []
    ∧ ∀ g, (t.withFns g).safeRun i = t.safeRun i := by
  refine ⟨?_, ?_, ?_, ?_, ?_, ?_⟩
  · simp [ForgeTask.safeRun, h]
  · simp [ForgeTask.safeRun, h]
  · simp [ForgeTask.safeRun, h]
  · intro n hn
    simp only [ForgeTask.safeRun, h]
    exact lookup_map_self _ _ _ hn
  · simp [ForgeTask.runTrace, h]
  · intro g
    have hnormEq : (t.withFns g).normalizeInput i = t.normalizeInput i := by
      cases i <;> simp [ForgeTask.normalizeInput, ForgeTask.withFns]
    have hvalEq : (t.withFns g).schema = t.schema := rfl
    have hnameEq : (t.withFns g).name = t.name := rfl
    simp only [ForgeTask.safeRun, hnormEq, hvalEq, hnameEq, withFns_declaredNames, h]

/-- C2 witness: the min-constrained schema rejects `{value: 0}` and all parts
of the short-circuit conclusion hold there. -/
theorem c2_validation_short_circuit_witness :
    (validationDemoTask.safeRun (some (.vobj [("value", .vnum 0)]))).1 = none
    ∧ (validationDemoTask.safeRun (some (.vobj [("value", .vnum 0)]))).2.1 =
        some (.validationError "Value must be positive")
    ∧ (validationDemoTask.safeRun (some (.vobj [("value", .vnum 0)]))).2.2.type = .error
    ∧ (∀ n ∈ validationDemoTask.declaredNames,
        List.lookup n (validationDemoTask.safeRun (some (.vobj [("value", .vnum 0)]))).2.2.boundaries = some [])
    ∧ validationDemoTask.runTrace (some (.vobj [("value", .vnum 0)])) = []
    ∧ ∀ g, (validationDemoTask.withFns g).safeRun (some (.vobj [("value", .vnum 0)])) =
        validationDemoTask.safeRun (some (.vobj [("value", .vnum 0)])) :=
  c2_validation_short_circuit validationDemoTask (some (.vobj [("value", .vnum 0)]))
    "Value must be positive" rfl

/-- C7: a task whose schema declares zero fields runs identically on an absent
input and on `{}` — both validate, and the produced record's input is the
empty object (so neither run can fail validation). -/
theorem c7_empty_schema_normalization (t : ForgeTask) (h : t.schema.fields = []) :
    t.safeRun none = t.safeRun (some (.vobj []))
    ∧ (t.safeRun none).2.2.input = .vobj []
    ∧ ∀ m, (t.safeRun none).2.1 ≠ some (.validationError m) := by
  have hnorm : t.normalizeInput none = .vobj [] := by
    simp [ForgeTask.normalizeInput, h]
  have hval : t.schema.validate (.vobj []) = .ok (.vobj []) := by
    simp [Schema.validate, h, validateFields]
  refine ⟨?_, ?_, ?_⟩
  · simp only [ForgeTask.safeRun]
    rw [hnorm]
    simp only [ForgeTask.normalizeInput]
  · simp only [ForgeTask.safeRun, hnorm, hval]
    cases hp : (execProg (t.handler (.vobj []))
        (t.initState (fun _ => false) (fun _ => []))).1 <;> simp [hp]
  · intro m
    simp only [ForgeTask.safeRun, hnorm, hval]
    cases hp : (execProg (t.handler (.vobj []))
        (t.initState (fun _ => false) (fun _ => []))).1 with
    | ok v => simp [hp]
    | error e => cases e <;> simp [hp, taskErrorOf]

/-- C7 witness: the empty-schema replay task accepts an absent input and `{}`
identically, with record input `{}`. -/
theorem c7_empty_schema_normalization_witness :
    replayDemoTask.safeRun none = replayDemoTask.safeRun (some (.vobj []))
    ∧ (replayDemoTask.safeRun none).2.2.input = .vobj []
    ∧ ∀ m, (replayDemoTask.safeRun none).2.1 ≠ some (.validationError m) :=
  c7_empty_schema_normalization replayDemoTask rfl

theorem call_proxy_ok (b : Boundary) (args : List Value) (t : Nat) (v : Value)
    (hm : b.mode = .proxy) (hmk : b.mockFn = none) (ha : b.active = true)
    (hres : b.fn args = .ok v) :
    b.call args t = (.ok v, { b with tape := b.tape ++
      [{ input := args, output := some v, error := none,
         timing := { startTime := t, endTime := t + 1, duration := 1 } }] }) := by
  simp [Boundary.call, hm, hmk, ha, hres]

theorem call_proxy_err (b : Boundary) (args : List Value) (t : Nat) (m : String)
    (hm : b.mode = .proxy) (hmk : b.mockFn = none) (ha : b.active = true)
    (hres : b.fn args = .error m) :
    b.call args t = (.error (.thrown m), { b with tape := b.tape ++
      [{ input := args, output := none, error := some m,
         timing := { startTime := t, endTime := t + 1, duration := 1 } }] }) := by
  simp [Boundary.call, hm, hmk, ha, hres]

theorem exec_tape_inputs (p : Prog) :
    ∀ (s : RunState),
      (∀ n b, s.bnds n = some b → b.mode = .proxy ∧ b.mockFn = none ∧ b.active = true) →
      ∀ n b, s.bnds n = some b →
        ∃ b', (execProg p s).2.bnds n = some b' ∧
          b'.tape.map (fun c => c.input) = b.tape.map (fun c => c.input) ++
            ((execTrace p s).filterMap (fun e => if e.1 = n then some e.2 else none)) := by
  induction p with
  | ret v =>
    intro s _ n b hsb
    exact ⟨b, by simpa [execProg] using hsb, by simp [execProg, execTrace]⟩
  | throwB m =>
    intro s _ n b hsb
    exact ⟨b, by simpa [execProg] using hsb, by simp [execProg, execTrace]⟩
  | callB name args k ih =>
    intro s hb n b hsb
    cases hname : s.bnds name with
    | none =>
      refine ⟨b, ?_, ?_⟩
      · simpa [execProg, hname] using hsb
      · simp [execProg, execTrace, hname]
    | some bn =>
      obtain ⟨hm, hmk, ha⟩ := hb name bn hname
      cases hres : bn.fn args with
      | ok v =>
        have hcall := call_proxy_ok bn args s.clock v hm hmk ha hres
        have hex : execProg (Prog.callB name args k) s =
            execProg (k v) (updState s name ((bn.call args s.clock).2)) := by
          simp [execProg, hname, hcall]
        have htr : execTrace (Prog.callB name args k) s =
            (name, args) :: execTrace (k v) (updState s name ((bn.call args s.clock).2)) := by
          simp [execTrace, hname, hcall]
        have hb2 : ∀ m bm, (updState s name ((bn.call args s.clock).2)).bnds m = some bm →
            bm.mode = .proxy ∧ bm.mockFn = none ∧ bm.active = true := by
          intro m bm hbm
          by_cases hmn : m = name
          · subst hmn
            simp [updState] at hbm
            rw [← hbm, hcall]
            exact ⟨hm, hmk, ha⟩
          · simp only [updState, if_neg hmn] at hbm
            exact hb m bm hbm
        by_cases hn : n = name
        · subst hn
          have hbeq : bn = b := by rw [hname] at hsb; exact Option.some.inj hsb
          subst hbeq
          have hs2 : (updState s n ((bn.call args s.clock).2)).bnds n =
              some ((bn.call args s.clock).2) := by simp [updState]
          obtain ⟨b', hb', htape⟩ := ih v _ hb2 n _ hs2
          refine ⟨b', ?_, ?_⟩
          · rw [hex]; exact hb'
          · rw [htape, htr, hcall]
            simp
        · have hs2 : (updState s name ((bn.call args s.clock).2)).bnds n = some b := by
            simp only [updState, if_neg hn]; exact hsb
          obtain ⟨b', hb', htape⟩ := ih v _ hb2 n _ hs2
          refine ⟨b', ?_, ?_⟩
          · rw [hex]; exact hb'
          · have hfalse : ¬ (name = n) := fun hy => hn hy.symm
            rw [htape, htr]
            simp [List.filterMap_cons, hfalse]
      | error m =>
        have hcall := call_proxy_err bn args s.clock m hm hmk ha hres
        have hex : execProg (Prog.callB name args k) s =
            (.error (.thrown m), updState s name ((bn.call args s.clock).2)) := by
          simp [execProg, hname, hcall]
        have htr : execTrace (Prog.callB name args k) s = [(name, args)] := by
          simp [execTrace, hname, hcall]
        by_cases hn : n = name
        · subst hn
          have hbeq : bn = b := by rw [hname] at hsb; exact Option.some.inj hsb
          subst hbeq
          refine ⟨(bn.call args s.clock).2, ?_, ?_⟩
          · rw [hex]; simp [updState]
          · rw [htr, hcall]
            simp
        · refine ⟨b, ?_, ?_⟩
          · rw [hex]
            simp only [updState, if_neg hn]
            exact hsb
          · have hfalse : ¬ (name = n) := fun hy => hn hy.symm
            rw [htr]
            simp [List.filterMap_cons, hfalse]

theorem lookup_some_of_mem_keys {α : Type} (l : List (String × α)) (n : String)
    (h : n ∈ l.map Prod.fst) : ∃ v, List.lookup n l = some v := by
  induction l with
  | nil => simp at h
  | cons p rest ih =>
    by_cases hn : n = p.1
    · exact ⟨p.2, by simp [List.lookup, hn]⟩
    · have hmem : n ∈ rest.map Prod.fst := by
        rw [List.map_cons] at h
        rcases List.mem_cons.mp h with h1 | h2
        · exact absurd h1 hn
        · exact h2
      obtain ⟨v, hv⟩ := ih hmem
      have hbeq : (n == p.1) = false := by simp [hn]
      exact ⟨v, by cases p with | mk a b => simpa [List.lookup, hbeq] using hv⟩

/-- C1: in every `safeRun`-produced record, each declared boundary's recorded
array lists exactly the calls made to that boundary during the run — same
count, same order, each entry's `input` equal to that call's positional
arguments — whether the run succeeded or failed. -/
theorem c1_record_boundaries_match_calls (t : ForgeTask) (i : Option Value) (n : String)
    (h : n ∈ t.declaredNames) :
    ∃ tape, List.lookup n (t.safeRun i).2.2.boundaries = some tape ∧
      tape.map (fun c => c.input) =
        (t.runTrace i).filterMap (fun e => if e.1 = n then some e.2 else none) ∧
      tape.length =
        ((t.runTrace i).filterMap (fun e => if e.1 = n then some e.2 else none)).length := by
  cases hv : t.schema.validate (t.normalizeInput i) with
  | error msg =>
    refine ⟨[], ?_, ?_, ?_⟩
    · simp only [ForgeTask.safeRun, hv]
      exact lookup_map_self t.declaredNames (fun _ => ([] : List CallRecord)) n h
    · simp [ForgeTask.runTrace, hv]
    · simp [ForgeTask.runTrace, hv]
  | ok data =>
    have hb0 : ∀ m bm, (t.initState (fun _ => false) (fun _ => [])).bnds m = some bm →
        bm.mode = .proxy ∧ bm.mockFn = none ∧ bm.active = true := by
      intro m bm hbm
      simp only [ForgeTask.initState] at hbm
      cases hlk : List.lookup m t.boundarySpecs with
      | none => rw [hlk] at hbm; simp at hbm
      | some f =>
        rw [hlk] at hbm
        simp only [Option.some.injEq] at hbm
        rw [← hbm]
        exact ⟨by simp, rfl, rfl⟩
    obtain ⟨f, hf⟩ := lookup_some_of_mem_keys t.boundarySpecs n h
    have hs0n : (t.initState (fun _ => false) (fun _ => [])).bnds n = some
        { fn := f, mockFn := none, mode := .proxy, replaySource := [],
          cursor := 0, active := true, tape := [] } := by
      simp [ForgeTask.initState, hf]
    obtain ⟨b', hb', htape⟩ :=
      exec_tape_inputs (t.handler data) (t.initState (fun _ => false) (fun _ => [])) hb0 n _ hs0n
    have htr : t.runTrace i =
        execTrace (t.handler data) (t.initState (fun _ => false) (fun _ => [])) := by
      simp [ForgeTask.runTrace, hv]
    have hlook : ∀ s : RunState,
        List.lookup n (t.assembleBoundaries s) =
          some (match s.bnds n with | some b => b.tape | none => []) := by
      intro s
      exact lookup_map_self t.declaredNames
        (fun m => (match s.bnds m with | some b => b.tape | none => [])) n h
    have hmap : b'.tape.map (fun c => c.input) =
        (t.runTrace i).filterMap (fun e => if e.1 = n then some e.2 else none) := by
      rw [htr]
      simpa using htape
    have hlen : b'.tape.length =
        ((t.runTrace i).filterMap (fun e => if e.1 = n then some e.2 else none)).length := by
      have := congrArg List.length hmap
      simpa using this
    refine ⟨b'.tape, ?_, hmap, hlen⟩
    simp only [ForgeTask.safeRun, hv]
    cases hp : (execProg (t.handler data) (t.initState (fun _ => false) (fun _ => []))).1 with
    | ok v =>
      simp only [hp]
      rw [hlook]
      rw [hb']
    | error e =>
      simp only [hp]
      rw [hlook]
      rw [hb']

/-- C1 witness: the `fetchData` boundary of scenario A satisfies the
tape-versus-calls correspondence on the `{value: 5}` run. -/
theorem c1_record_boundaries_match_calls_witness :
    ∃ tape, List.lookup "fetchData"
        (scenarioATask.safeRun (some (.vobj [("value", .vnum 5)]))).2.2.boundaries = some tape ∧
      tape.map (fun c => c.input) =
        (scenarioATask.runTrace (some (.vobj [("value", .vnum 5)]))).filterMap
          (fun e => if e.1 = "fetchData" then some e.2 else none) ∧
      tape.length =
        ((scenarioATask.runTrace (some (.vobj [("value", .vnum 5)]))).filterMap
          (fun e => if e.1 = "fetchData" then some e.2 else none)).length :=
  c1_record_boundaries_match_calls scenarioATask (some (.vobj [("value", .vnum 5)]))
    "fetchData" (by simp [scenarioATask, ForgeTask.declaredNames])

theorem call_tape_prefix (b : Boundary) (args : List Value) (t : Nat) :
    ((b.call args t).2).tape = b.tape ++ (((b.call args t).2).tape.drop b.tape.length) := by
  cases hm : b.mode with
  | replay =>
    cases hget : b.replaySource[b.cursor]? with
    | none => simp [Boundary.call, hm, hget, List.drop_length]
    | some entry =>
      cases ha : b.active <;>
        simp [Boundary.call, hm, hget, ha, List.drop_length, List.drop_left]
  | proxy =>
    cases hres : (b.mockFn.getD b.fn) args with
    | ok v =>
      cases ha : b.active <;>
        simp [Boundary.call, hm, hres, ha, List.drop_length, List.drop_left]
    | error m =>
      cases ha : b.active <;>
        simp [Boundary.call, hm, hres, ha, List.drop_length, List.drop_left]

theorem call_fields (b : Boundary) (args : List Value) (t : Nat) :
    ((b.call args t).2).fn = b.fn ∧ ((b.call args t).2).mockFn = b.mockFn
    ∧ ((b.call args t).2).mode = b.mode ∧ ((b.call args t).2).active = b.active
    ∧ ((b.call args t).2).replaySource = b.replaySource := by
  cases hm : b.mode with
  | replay =>
    cases hget : b.replaySource[b.cursor]? with
    | none => simp [Boundary.call, hm, hget]
    | some entry => simp [Boundary.call, hm, hget]
  | proxy =>
    cases hres : (b.mockFn.getD b.fn) args with
    | ok v => simp [Boundary.call, hm, hres]
    | error m => simp [Boundary.call, hm, hres]

theorem exec_appends_tape (p : Prog) :
    ∀ (s : RunState) (n : String) (b : Boundary), s.bnds n = some b →
      ∃ b', (execProg p s).2.bnds n = some b' ∧ b'.tape = b.tape ++ execAppends p s n := by
  induction p with
  | ret v =>
    intro s n b hsb
    exact ⟨b, by simpa [execProg] using hsb, by simp [execAppends]⟩
  | throwB m =>
    intro s n b hsb
    exact ⟨b, by simpa [execProg] using hsb, by simp [execAppends]⟩
  | callB name args k ih =>
    intro s n b hsb
    cases hname : s.bnds name with
    | none =>
      refine ⟨b, ?_, ?_⟩
      · simpa [execProg, hname] using hsb
      · simp [execAppends, hname]
    | some bn =>
      cases hp1 : (bn.call args s.clock).1 with
      | ok v =>
        have hex : execProg (Prog.callB name args k) s =
            execProg (k v) (updState s name ((bn.call args s.clock).2)) := by
          simp [execProg, hname, hp1]
        have hap : execAppends (Prog.callB name args k) s n =
            (if n = name then ((bn.call args s.clock).2).tape.drop bn.tape.length else []) ++
              execAppends (k v) (updState s name ((bn.call args s.clock).2)) n := by
          simp [execAppends, hname, hp1]
        by_cases hn : n = name
        · subst hn
          have hbeq : bn = b := by rw [hname] at hsb; exact Option.some.inj hsb
          subst hbeq
          have hs2 : (updState s n ((bn.call args s.clock).2)).bnds n =
              some ((bn.call args s.clock).2) := by simp [updState]
          obtain ⟨b', hb', htp⟩ := ih v _ n _ hs2
          refine ⟨b', by rw [hex]; exact hb', ?_⟩
          rw [hex] at *
          rw [htp, hap]
          rw [if_pos rfl]
          rw [← List.append_assoc]
          rw [← call_tape_prefix bn args s.clock]
        · have hs2 : (updState s name ((bn.call args s.clock).2)).bnds n = some b := by
            simp only [updState, if_neg hn]; exact hsb
          obtain ⟨b', hb', htp⟩ := ih v _ n _ hs2
          refine ⟨b', by rw [hex]; exact hb', ?_⟩
          rw [htp, hap, if_neg hn]
          simp
      | error e =>
        have hex : execProg (Prog.callB name args k) s =
            (.error e, updState s name ((bn.call args s.clock).2)) := by
          simp [execProg, hname, hp1]
        have hap : execAppends (Prog.callB name args k) s n =
            (if n = name then ((bn.call args s.clock).2).tape.drop bn.tape.length else []) := by
          simp [execAppends, hname, hp1]
        by_cases hn : n = name
        · subst hn
          have hbeq : bn = b := by rw [hname] at hsb; exact Option.some.inj hsb
          subst hbeq
          refine ⟨(bn.call args s.clock).2, ?_, ?_⟩
          · rw [hex]; simp [updState]
          · rw [hap, if_pos rfl]
            exact call_tape_prefix bn args s.clock
        · refine ⟨b, ?_, ?_⟩
          · rw [hex]
            simp only [updState, if_neg hn]
            exact hsb
          · rw [hap, if_neg hn]
            simp

theorem mem_keys_of_lookup_some {α : Type} (l : List (String × α)) (n : String) (v : α)
    (h : List.lookup n l = some v) : n ∈ l.map Prod.fst := by
  induction l with
  | nil => simp [List.lookup] at h
  | cons p rest ih =>
    cases p with
    | mk a b =>
      by_cases hn : n = a
      · simp [hn]
      · have hbeq : (n == a) = false := by simp [hn]
        simp only [List.lookup, hbeq] at h
        simp [ih h]

theorem lookup_map_fn {α β : Type} (l : List (String × α)) (g : String → β) (n : String) :
    List.lookup n (l.map fun p => (p.1, g p.1)) = (List.lookup n l).map (fun _ => g n) := by
  induction l with
  | nil => simp [List.lookup]
  | cons p rest ih =>
    cases p with
    | mk a b =>
      by_cases hn : n = a
      · subst hn; simp [List.lookup]
      · have hbeq : (n == a) = false := by simp [hn]
        simp only [List.map_cons, List.lookup, hbeq]
        exact ih

theorem call_replay_entry (b : Boundary) (args : List Value) (t : Nat) (entry : CallRecord)
    (hm : b.mode = .replay) (hget : b.replaySource[b.cursor]? = some entry) :
    b.call args t =
      ((match entry.error with
        | some m => .error (.thrown m)
        | none => .ok (entry.output.getD .vnull)),
       { b with cursor := b.cursor + 1,
                tape := if b.active then b.tape ++
                  [{ input := args, output := entry.output, error := entry.error,
                     timing := { startTime := t, endTime := t + 1, duration := 1 } }]
                  else b.tape }) := by
  simp [Boundary.call, hm, hget]

/-- A replay-mode boundary whose cursor has consumed its whole recorded
sequence fails the next call with `ReplayExhausted`. -/
theorem call_replay_exhausted (b : Boundary) (args : List Value) (t : Nat)
    (hm : b.mode = .replay) (hc : b.replaySource.length ≤ b.cursor) :
    (b.call args t).1 = .error .replayExhausted := by
  have hget : b.replaySource[b.cursor]? = none := List.getElem?_eq_none hc
  simp [Boundary.call, hm, hget]

theorem exec_replay_result (p : Prog) :
    ∀ (s r : RunState),
      (∀ n b, s.bnds n = some b → b.mode = .proxy ∧ b.mockFn = none ∧ b.active = true) →
      (∀ n, s.bnds n = none → r.bnds n = none) →
      (∀ n bs, s.bnds n = some bs → ∃ br, r.bnds n = some br ∧ br.mode = .replay ∧
        br.replaySource.drop br.cursor = execAppends p s n) →
      (execProg p r).1 = (execProg p s).1 := by
  induction p with
  | ret v => intro s r _ _ _; simp [execProg]
  | throwB m => intro s r _ _ _; simp [execProg]
  | callB name args k ih =>
    intro s r hs hnone hrep
    cases hnameS : s.bnds name with
    | none =>
      have hr := hnone name hnameS
      simp [execProg, hnameS, hr]
    | some bs =>
      obtain ⟨hmS, hmkS, haS⟩ := hs name bs hnameS
      obtain ⟨br, hnameR, hmR, hsrc⟩ := hrep name bs hnameS
      cases hres : bs.fn args with
      | ok v =>
        have hcallS := call_proxy_ok bs args s.clock v hmS hmkS haS hres
        have hp1S : (bs.call args s.clock).1 = Except.ok v := by rw [hcallS]
        have hapS : execAppends (Prog.callB name args k) s name =
            { input := args, output := some v, error := none,
              timing := { startTime := s.clock, endTime := s.clock + 1, duration := 1 } } ::
              execAppends (k v) (updState s name ((bs.call args s.clock).2)) name := by
          simp [execAppends, hnameS, hp1S, hcallS, List.drop_left]
        rw [hapS] at hsrc
        have hgetR : br.replaySource[br.cursor]? = some
            { input := args, output := some v, error := none,
              timing := { startTime := s.clock, endTime := s.clock + 1, duration := 1 } } := by
          have h0 := congrArg (fun l => l[0]?) hsrc
          simpa [List.getElem?_drop] using h0
        have hcallR := call_replay_entry br args r.clock _ hmR hgetR
        have hp1R : (br.call args r.clock).1 = Except.ok v := by rw [hcallR]; rfl
        have hexS : execProg (Prog.callB name args k) s =
            execProg (k v) (updState s name ((bs.call args s.clock).2)) := by
          simp [execProg, hnameS, hp1S]
        have hexR : execProg (Prog.callB name args k) r =
            execProg (k v) (updState r name ((br.call args r.clock).2)) := by
          simp [execProg, hnameR, hp1R]
        rw [hexS, hexR]
        apply ih v
        · intro m bm hbm
          by_cases hmn : m = name
          · subst hmn
            simp [updState] at hbm
            rw [← hbm, hcallS]
            exact ⟨hmS, hmkS, haS⟩
          · simp only [updState, if_neg hmn] at hbm
            exact hs m bm hbm
        · intro m hm0
          by_cases hmn : m = name
          · subst hmn
            simp [updState] at hm0
          · simp only [updState, if_neg hmn] at hm0 ⊢
            exact hnone m hm0
        · intro m bm hbm
          by_cases hmn : m = name
          · subst hmn
            simp [updState] at hbm
            subst hbm
            refine ⟨(br.call args r.clock).2, by simp [updState], ?_, ?_⟩
            · rw [hcallR]
              exact hmR
            · have hdrop1 : br.replaySource.drop (br.cursor + 1) =
                  execAppends (k v) (updState s m ((bs.call args s.clock).2)) m := by
                rw [← List.drop_drop, hsrc, List.drop_one, List.tail_cons]
              rw [hcallR]
              show br.replaySource.drop (br.cursor + 1) = _
              exact hdrop1
          · simp only [updState, if_neg hmn] at hbm
            obtain ⟨br', hbr', hmode', hdrop'⟩ := hrep m bm hbm
            refine ⟨br', by simp only [updState, if_neg hmn]; exact hbr', hmode', ?_⟩
            rw [hdrop']
            simp [execAppends, hnameS, hp1S, if_neg hmn]
      | error m =>
        have hcallS := call_proxy_err bs args s.clock m hmS hmkS haS hres
        have hp1S : (bs.call args s.clock).1 = Except.error (.thrown m) := by rw [hcallS]
        have hapS : execAppends (Prog.callB name args k) s name =
            [{ input := args, output := none, error := some m,
               timing := { startTime := s.clock, endTime := s.clock + 1, duration := 1 } }] := by
          simp [execAppends, hnameS, hp1S, hcallS, List.drop_left]
        rw [hapS] at hsrc
        have hgetR : br.replaySource[br.cursor]? = some
            { input := args, output := none, error := some m,
              timing := { startTime := s.clock, endTime := s.clock + 1, duration := 1 } } := by
          have h0 := congrArg (fun l => l[0]?) hsrc
          simpa [List.getElem?_drop] using h0
        have hcallR := call_replay_entry br args r.clock _ hmR hgetR
        have hp1R : (br.call args r.clock).1 = Except.error (.thrown m) := by
          rw [hcallR]
        have hexS : (execProg (Prog.callB name args k) s).1 = Except.error (.thrown m) := by
          simp [execProg, hnameS, hp1S]
        have hexR : (execProg (Prog.callB name args k) r).1 = Except.error (.thrown m) := by
          simp [execProg, hnameR, hp1R]
        rw [hexS, hexR]

theorem replay_matches (t tr : ForgeTask) (hh : tr.handler = t.handler)
    (hk : tr.declaredNames = t.declaredNames)
    (i : Option Value) (out : Value) (R : ExecutionRecord)
    (h : t.safeRun i = (some out, none, R)) :
    (tr.safeReplay R tr.allReplay).1 = some out ∧
    (tr.safeReplay R tr.allReplay).2.2.input = R.input := by
  cases hv : t.schema.validate (t.normalizeInput i) with
  | error msg =>
    simp only [ForgeTask.safeRun, hv] at h
    exact absurd (congrArg (fun q => q.1) h) (by simp)
  | ok data =>
    cases hp : (execProg (t.handler data) (t.initState (fun _ => false) (fun _ => []))).1 with
    | error e =>
      simp only [ForgeTask.safeRun, hv, hp] at h
      exact absurd (congrArg (fun q => q.1) h) (by simp)
    | ok v =>
      simp only [ForgeTask.safeRun, hv, hp] at h
      have hvout : v = out := by
        have := congrArg (fun q => q.1) h
        simpa using this
      have hRrec : R =
          { input := data, output := some v, error := none,
            boundaries := t.assembleBoundaries
              (execProg (t.handler data) (t.initState (fun _ => false) (fun _ => []))).2,
            type := .success, taskName := t.name } := by
        have := congrArg (fun q => q.2.2) h
        simpa using this.symm
      have hRin : R.input = data := by rw [hRrec]
      have hRbnd : R.boundaries = t.assembleBoundaries
          (execProg (t.handler data) (t.initState (fun _ => false) (fun _ => []))).2 := by
        rw [hRrec]
      have hs : ∀ n b, (t.initState (fun _ => false) (fun _ => [])).bnds n = some b →
          b.mode = .proxy ∧ b.mockFn = none ∧ b.active = true := by
        intro n b hbn
        simp only [ForgeTask.initState] at hbn
        cases hlk : List.lookup n t.boundarySpecs with
        | none => rw [hlk] at hbn; simp at hbn
        | some f =>
          rw [hlk] at hbn
          simp only [Option.some.injEq] at hbn
          rw [← hbn]
          exact ⟨by simp, rfl, rfl⟩
      have hnone : ∀ n, (t.initState (fun _ => false) (fun _ => [])).bnds n = none →
          (tr.initState (fun n => (List.lookup n tr.allReplay).getD false)
            (fun n => (List.lookup n R.boundaries).getD [])).bnds n = none := by
        intro n hn
        cases hlk : List.lookup n tr.boundarySpecs with
        | none => simp [ForgeTask.initState, hlk]
        | some f =>
          exfalso
          have hmem : n ∈ tr.declaredNames := mem_keys_of_lookup_some _ _ _ hlk
          rw [hk] at hmem
          obtain ⟨f2, hf2⟩ := lookup_some_of_mem_keys t.boundarySpecs n hmem
          simp [ForgeTask.initState, hf2] at hn
      have hrep : ∀ n bs2, (t.initState (fun _ => false) (fun _ => [])).bnds n = some bs2 →
          ∃ br, (tr.initState (fun n => (List.lookup n tr.allReplay).getD false)
              (fun n => (List.lookup n R.boundaries).getD [])).bnds n = some br ∧
            br.mode = .replay ∧
            br.replaySource.drop br.cursor =
              execAppends (t.handler data) (t.initState (fun _ => false) (fun _ => [])) n := by
        intro n bs2 hn
        have hn' := hn
        simp only [ForgeTask.initState] at hn'
        cases hlk : List.lookup n t.boundarySpecs with
        | none => rw [hlk] at hn'; simp at hn'
        | some f =>
          rw [hlk] at hn'
          simp only [Option.some.injEq] at hn'
          have hmemT : n ∈ t.declaredNames := mem_keys_of_lookup_some _ _ _ hlk
          have hmemTr : n ∈ tr.declaredNames := by rw [hk]; exact hmemT
          obtain ⟨f2, hf2⟩ := lookup_some_of_mem_keys tr.boundarySpecs n hmemTr
          have hrf : List.lookup n tr.allReplay = some true :=
            lookup_map_self tr.declaredNames (fun _ => true) n hmemTr
          obtain ⟨bf, hbf, hbft⟩ := exec_appends_tape (t.handler data)
            (t.initState (fun _ => false) (fun _ => [])) n bs2 hn
          have hlookR : List.lookup n R.boundaries = some
              (match (execProg (t.handler data)
                  (t.initState (fun _ => false) (fun _ => []))).2.bnds n with
                | some b => b.tape | none => []) := by
            rw [hRbnd]
            exact lookup_map_self t.declaredNames _ n hmemT
          refine ⟨{ fn := f2, mockFn := none,
                    mode := if (List.lookup n tr.allReplay).getD false then .replay
                      else .proxy,
                    replaySource := (List.lookup n R.boundaries).getD [],
                    cursor := 0, active := true, tape := [] }, ?_, ?_, ?_⟩
          · simp only [ForgeTask.initState]
            rw [hf2]
          · show (if (List.lookup n tr.allReplay).getD false then BoundaryMode.replay
              else BoundaryMode.proxy) = BoundaryMode.replay
            rw [hrf]
            rfl
          · show ((List.lookup n R.boundaries).getD []).drop 0 =
              execAppends (t.handler data) (t.initState (fun _ => false) (fun _ => [])) n
            rw [List.drop_zero, hlookR, Option.getD_some, hbf]
            show bf.tape = _
            rw [hbft, ← hn']
            simp
      have hres := exec_replay_result (t.handler data)
        (t.initState (fun _ => false) (fun _ => []))
        (tr.initState (fun n => (List.lookup n tr.allReplay).getD false)
          (fun n => (List.lookup n R.boundaries).getD []))
        hs hnone hrep
      have hq : (execProg (tr.handler R.input)
          (tr.initState (fun n => (List.lookup n tr.allReplay).getD false)
            (fun n => (List.lookup n R.boundaries).getD []))).1 = Except.ok v := by
        rw [hh, hRin, hres, hp]
      constructor
      · simp only [ForgeTask.safeReplay, hq]
        simp [hvout]
      · simp only [ForgeTask.safeReplay, hq]

/-- C4: replaying a prior success record with every boundary set to `'replay'`
reproduces the original output; the produced record's input equals the prior
record's input; the live boundary functions are never consulted (any
replacement of them yields the same output); and a replay-mode boundary whose
recorded entries are exhausted fails its next call with `ReplayExhausted`. -/
theorem c4_replay_reproduces_output (t : ForgeTask) (i : Option Value) (out : Value)
    (R : ExecutionRecord) (h : t.safeRun i = (some out, none, R)) :
    (t.safeReplay R t.allReplay).1 = some out
    ∧ (t.safeReplay R t.allReplay).2.2.input = R.input
    ∧ (∀ g, ((t.withFns g).safeReplay R ((t.withFns g).allReplay)).1 = some out)
    ∧ (∀ (b : Boundary) (args : List Value) (ts : Nat), b.mode = .replay →
        b.replaySource.length ≤ b.cursor →
        (b.call args ts).1 = .error .replayExhausted) :=
  ⟨(replay_matches t t rfl rfl i out R h).1,
   (replay_matches t t rfl rfl i out R h).2,
   fun g => (replay_matches t (t.withFns g) rfl (withFns_declaredNames t g) i out R h).1,
   fun b args ts hm hc => call_replay_exhausted b args ts hm hc⟩

/-- C4 witness: replaying the empty-schema `getData` task's success record
reproduces the output, preserves the record input, ignores replacements of the
live function, and exhausts past the recorded single call. -/
theorem c4_replay_reproduces_output_witness :
    (replayDemoTask.safeReplay
        { input := .vobj [], output := some (.vobj [("data", .vstr "test-data")]),
          error := none,
          boundaries := [("getData",
            [{ input := [], output := some (.vstr "test-data"), error := none,
               timing := { startTime := 0, endTime := 1, duration := 1 } }])],
          type := .success, taskName := "replayTask" }
        replayDemoTask.allReplay).1 = some (.vobj [("data", .vstr "test-data")])
    ∧ (replayDemoTask.safeReplay
        { input := .vobj [], output := some (.vobj [("data", .vstr "test-data")]),
          error := none,
          boundaries := [("getData",
            [{ input := [], output := some (.vstr "test-data"), error := none,
               timing := { startTime := 0, endTime := 1, duration := 1 } }])],
          type := .success, taskName := "replayTask" }
        replayDemoTask.allReplay).2.2.input =
      ({ input := .vobj [], output := some (.vobj [("data", .vstr "test-data")]),
         error := none,
         boundaries := [("getData",
           [{ input := [], output := some (.vstr "test-data"), error := none,
              timing := { startTime := 0, endTime := 1, duration := 1 } }])],
         type := .success, taskName := "replayTask" } : ExecutionRecord).input
    ∧ (∀ g, ((replayDemoTask.withFns g).safeReplay
        { input := .vobj [], output := some (.vobj [("data", .vstr "test-data")]),
          error := none,
          boundaries := [("getData",
            [{ input := [], output := some (.vstr "test-data"), error := none,
               timing := { startTime := 0, endTime := 1, duration := 1 } }])],
          type := .success, taskName := "replayTask" }
        ((replayDemoTask.withFns g).allReplay)).1 = some (.vobj [("data", .vstr "test-data")]))
    ∧ (∀ (b : Boundary) (args : List Value) (ts : Nat), b.mode = .replay →
        b.replaySource.length ≤ b.cursor →
        (b.call args ts).1 = .error .replayExhausted) :=
  c4_replay_reproduces_output replayDemoTask none (.vobj [("data", .vstr "test-data")])
    { input := .vobj [], output := some (.vobj [("data", .vstr "test-data")]),
      error := none,
      boundaries := [("getData",
        [{ input := [], output := some (.vstr "test-data"), error := none,
           timing := { startTime := 0, endTime := 1, duration := 1 } }])],
      type := .success, taskName := "replayTask" }
    rfl

theorem digitChar_spec : ∀ d, d < 10 →
    isDigitC (digitChar d) = true ∧ digitVal (digitChar d) = d := by decide

theorem natToCharsAux_digits (fuel : Nat) :
    ∀ n c, c ∈ natToCharsAux fuel n → isDigitC c = true := by
  induction fuel with
  | zero => intro n c hc; simp [natToCharsAux] at hc
  | succ fuel ih =>
    intro n c hc
    by_cases hn : n < 10
    · simp [natToCharsAux, hn] at hc
      rw [hc]
      exact (digitChar_spec n hn).1
    · simp only [natToCharsAux, if_neg hn, List.mem_append] at hc
      rcases hc with h1 | h2
      · exact ih (n / 10) c h1
      · simp at h2
        rw [h2]
        exact (digitChar_spec (n % 10) (Nat.mod_lt n (by omega))).1

theorem parseDigits_append (ds : List Char) :
    ∀ rest acc, (∀ c ∈ ds, isDigitC c = true) → digitStart rest = false →
      parseDigits (ds ++ rest) acc = (digitsVal ds acc, rest) := by
  induction ds with
  | nil =>
    intro rest acc _ hrest
    cases rest with
    | nil => simp [parseDigits, digitsVal]
    | cons c cs =>
      simp only [digitStart] at hrest
      simp [parseDigits, hrest, digitsVal]
  | cons c cs ih =>
    intro rest acc hds hrest
    have hc : isDigitC c = true := hds c (by simp)
    simp only [List.cons_append, parseDigits, hc, if_pos, List.append_eq]
    rw [ih rest (acc * 10 + digitVal c) (fun x hx => hds x (by simp [hx])) hrest]
    simp [digitsVal]

theorem natToCharsAux_val (fuel : Nat) :
    ∀ n acc, n < fuel →
      digitsVal (natToCharsAux fuel n) acc =
        acc * 10 ^ (natToCharsAux fuel n).length + n := by
  induction fuel with
  | zero => intro n acc h; omega
  | succ fuel ih =>
    intro n acc h
    by_cases hn : n < 10
    · simp [natToCharsAux, hn, digitsVal, (digitChar_spec n hn).2]
    · have hdivlt : n / 10 < n := Nat.div_lt_self (by omega) (by omega)
      have hdivfuel : n / 10 < fuel := by omega
      simp only [natToCharsAux, if_neg hn]
      have hsplit : digitsVal (natToCharsAux fuel (n / 10) ++ [digitChar (n % 10)]) acc =
          digitsVal (natToCharsAux fuel (n / 10)) acc * 10 + digitVal (digitChar (n % 10)) := by
        simp [digitsVal, List.foldl_append]
      rw [hsplit, ih (n / 10) acc hdivfuel, (digitChar_spec (n % 10) (Nat.mod_lt n (by omega))).2]
      have hlen : (natToCharsAux fuel (n / 10) ++ [digitChar (n % 10)]).length =
          (natToCharsAux fuel (n / 10)).length + 1 := by simp
      rw [hlen, pow_succ]
      have := Nat.div_add_mod n 10
      ring_nf
      omega

theorem natToCharsAux_ne_nil (fuel n : Nat) : natToCharsAux (fuel + 1) n ≠ [] := by
  by_cases hn : n < 10
  · simp [natToCharsAux, hn]
  · simp [natToCharsAux, hn]

theorem parseNat_enc (n : Nat) (rest : List Char) (hrest : digitStart rest = false) :
    parseNat (natToChars n ++ rest) = some (n, rest) := by
  have hne := natToCharsAux_ne_nil n n
  have hdigits := natToCharsAux_digits (n + 1) n
  have hval := natToCharsAux_val (n + 1) n 0 (by omega)
  cases hds : natToCharsAux (n + 1) n with
  | nil => exact absurd hds hne
  | cons c cs =>
    have hc : isDigitC c = true := hdigits c (by simp [hds])
    simp only [natToChars, hds, List.cons_append, parseNat, hc, if_pos]
    rw [parseDigits_append cs rest (digitVal c)
      (fun x hx => hdigits x (by simp [hds, hx])) hrest]
    rw [hds] at hval
    simp only [digitsVal, List.foldl_cons, Nat.zero_mul, Nat.zero_add] at hval
    simp [digitsVal, hval]

theorem natToChars_head_digit (n : Nat) :
    ∀ c cs, natToChars n = c :: cs → isDigitC c = true := by
  intro c cs h
  exact natToCharsAux_digits (n + 1) n c (by rw [show natToCharsAux (n + 1) n = natToChars n from rfl, h]; simp)

theorem parseIntChars_cons_ne (c : Char) (cs : List Char) (h : ¬ c = '-') :
    parseIntChars (c :: cs) =
      match parseNat (c :: cs) with
      | some p => some ((p.1 : Int), p.2)
      | none => none := by
  simp only [parseIntChars, if_neg h]

theorem parseIntChars_enc (i : Int) (rest : List Char) (hrest : digitStart rest = false) :
    parseIntChars (encInt i ++ rest) = some (i, rest) := by
  by_cases hi : i < 0
  · simp only [encInt, if_pos hi, List.cons_append, parseIntChars, if_pos rfl]
    rw [parseNat_enc (-i).toNat rest hrest]
    have hcast : (((-i).toNat : Int)) = -i := Int.toNat_of_nonneg (by omega)
    simp [hcast]
  · simp only [encInt, if_neg hi]
    have hne := natToCharsAux_ne_nil i.toNat i.toNat
    cases hds : natToChars i.toNat with
    | nil =>
      simp only [natToChars] at hds
      exact absurd hds hne
    | cons c cs =>
      have hc : isDigitC c = true := natToChars_head_digit i.toNat c cs hds
      have hcm : ¬(c = '-') := by
        intro h
        rw [h] at hc
        exact absurd hc (by decide)
      have hpn : parseNat (c :: (cs ++ rest)) = some (i.toNat, rest) := by
        rw [← List.cons_append, ← hds]
        exact parseNat_enc i.toNat rest hrest
      rw [List.cons_append, parseIntChars_cons_ne c (cs ++ rest) hcm, hpn]
      have hcast : ((i.toNat : Nat) : Int) = i := Int.toNat_of_nonneg (by omega)
      simp [hcast]

theorem parseStrBody_esc (l : List Char) :
    ∀ rest, parseStrBody (escChars l ++ ('"' :: rest)) = some (l, rest) := by
  induction l with
  | nil =>
    intro rest
    rw [show escChars [] ++ ('"' :: rest) = '"' :: rest by simp [escChars]]
    rw [parseStrBody.eq_def]
    simp
  | cons c l' ih =>
    intro rest
    by_cases h1 : c = '"'
    · subst h1
      rw [show escChars ('"' :: l') ++ ('"' :: rest) =
          '\\' :: '"' :: (escChars l' ++ ('"' :: rest)) by simp [escChars, escChar]]
      rw [parseStrBody.eq_def]
      simp only [show (('\\' : Char) = '"') = False by decide,
        show (('\\' : Char) = '\\') = True by decide, if_false, if_true,
        unescChar, if_pos rfl, ih rest]
    · by_cases h2 : c = '\\'
      · subst h2
        rw [show escChars ('\\' :: l') ++ ('"' :: rest) =
            '\\' :: '\\' :: (escChars l' ++ ('"' :: rest)) by simp [escChars, escChar]]
        rw [parseStrBody.eq_def]
        simp only [show (('\\' : Char) = '"') = False by decide,
          show (('\\' : Char) = '\\') = True by decide, if_false, if_true,
          unescChar, if_pos rfl, ih rest]
      · by_cases h3 : c = '\n'
        · subst h3
          rw [show escChars ('\n' :: l') ++ ('"' :: rest) =
              '\\' :: 'n' :: (escChars l' ++ ('"' :: rest)) by simp [escChars, escChar]]
          rw [parseStrBody.eq_def]
          simp only [show (('\\' : Char) = '"') = False by decide,
            show (('\\' : Char) = '\\') = True by decide, if_false, if_true,
            unescChar, show (('n' : Char) = '"') = False by decide,
            show (('n' : Char) = '\\') = False by decide,
            show (('n' : Char) = 'n') = True by decide, ih rest]
        · rw [show escChars (c :: l') ++ ('"' :: rest) =
              c :: (escChars l' ++ ('"' :: rest)) by simp [escChars, escChar, h1, h2, h3]]
          rw [parseStrBody.eq_def]
          simp only [if_neg h1, if_neg h2, ih rest]

theorem digit_not_special (c : Char) (h : isDigitC c = true) :
    ¬c = 'n' ∧ ¬c = 't' ∧ ¬c = 'f' ∧ ¬c = '"' ∧ ¬c = '[' ∧ ¬c = lbrace
    ∧ ¬c = ']' ∧ ¬c = rbrace := by
  refine ⟨?_, ?_, ?_, ?_, ?_, ?_, ?_, ?_⟩ <;>
    (intro he; rw [he] at h; revert h; decide)

theorem encInt_shape (i : Int) :
    ∃ c cs, encInt i = c :: cs ∧
      ¬c = 'n' ∧ ¬c = 't' ∧ ¬c = 'f' ∧ ¬c = '"' ∧ ¬c = '[' ∧ ¬c = lbrace
      ∧ ¬c = ']' ∧ ¬c = rbrace := by
  by_cases hi : i < 0
  · exact ⟨'-', natToChars (-i).toNat, by simp [encInt, hi], by decide, by decide,
      by decide, by decide, by decide, by decide, by decide, by decide⟩
  · have hne := natToCharsAux_ne_nil i.toNat i.toNat
    cases hds : natToChars i.toNat with
    | nil => simp only [natToChars] at hds; exact absurd hds hne
    | cons c cs =>
      have hc : isDigitC c = true := natToChars_head_digit i.toNat c cs hds
      obtain ⟨h1, h2, h3, h4, h5, h6, h7, h8⟩ := digit_not_special c hc
      exact ⟨c, cs, by simp [encInt, hi, hds], h1, h2, h3, h4, h5, h6, h7, h8⟩

theorem encVal_shape (v : Value) :
    ∃ c cs, encVal v = c :: cs ∧ ¬c = ']' ∧ ¬c = rbrace := by
  cases v with
  | vnull => exact ⟨'n', ['u', 'l', 'l'], by simp [encVal], by decide, by decide⟩
  | vbool b =>
    cases b with
    | true => exact ⟨'t', ['r', 'u', 'e'], by simp [encVal], by decide, by decide⟩
    | false => exact ⟨'f', ['a', 'l', 's', 'e'], by simp [encVal], by decide, by decide⟩
  | vnum i =>
    obtain ⟨c, cs, heq, _, _, _, _, _, _, h7, h8⟩ := encInt_shape i
    exact ⟨c, cs, by simp [encVal, heq], h7, h8⟩
  | vstr s =>
    exact ⟨'"', escChars s.data ++ ['"'], by simp [encVal, encStr], by decide, by decide⟩
  | varr xs =>
    cases xs with
    | nil => exact ⟨'[', [']'], by simp [encVal], by decide, by decide⟩
    | cons x xs => exact ⟨'[', encElems x xs, by simp [encVal], by decide, by decide⟩
  | vobj fs =>
    cases fs with
    | nil => exact ⟨lbrace, [rbrace], by simp [encVal], by decide, by decide⟩
    | cons f fs => exact ⟨lbrace, encFields f fs, by simp [encVal], by decide, by decide⟩

mutual

theorem rv_enc : ∀ (v : Value) (fuel : Nat) (rest : List Char), vsize v < fuel →
    digitStart rest = false → parseVal fuel (encVal v ++ rest) = some (v, rest)
  | .vnull, fuel, rest, hf, _ => by
    obtain ⟨f, rfl⟩ : ∃ f, fuel = f + 1 := ⟨fuel - 1, by simp [vsize] at hf; omega⟩
    rw [show encVal .vnull ++ rest = 'n' :: 'u' :: 'l' :: 'l' :: rest by simp [encVal]]
    simp [parseVal, expectChars]
  | .vbool true, fuel, rest, hf, _ => by
    obtain ⟨f, rfl⟩ : ∃ f, fuel = f + 1 := ⟨fuel - 1, by simp [vsize] at hf; omega⟩
    rw [show encVal (.vbool true) ++ rest = 't' :: 'r' :: 'u' :: 'e' :: rest by simp [encVal]]
    simp [parseVal, expectChars]
  | .vbool false, fuel, rest, hf, _ => by
    obtain ⟨f, rfl⟩ : ∃ f, fuel = f + 1 := ⟨fuel - 1, by simp [vsize] at hf; omega⟩
    rw [show encVal (.vbool false) ++ rest = 'f' :: 'a' :: 'l' :: 's' :: 'e' :: rest by
      simp [encVal]]
    simp [parseVal, expectChars]
  | .vnum i, fuel, rest, hf, hr => by
    obtain ⟨f, rfl⟩ : ∃ f, fuel = f + 1 := ⟨fuel - 1, by simp [vsize] at hf; omega⟩
    obtain ⟨c, cs, hE, h1, h2, h3, h4, h5, h6, _, _⟩ := encInt_shape i
    rw [show encVal (.vnum i) = encInt i by simp [encVal], hE, List.cons_append]
    simp only [parseVal, if_neg h1, if_neg h2, if_neg h3, if_neg h4, if_neg h5, if_neg h6]
    rw [← List.cons_append, ← hE, parseIntChars_enc i rest hr]
  | .vstr s, fuel, rest, hf, _ => by
    obtain ⟨f, rfl⟩ : ∃ f, fuel = f + 1 := ⟨fuel - 1, by simp [vsize] at hf; omega⟩
    rw [show encVal (.vstr s) ++ rest = '"' :: (escChars s.data ++ ('"' :: rest)) by
      simp [encVal, encStr]]
    simp [parseVal, parseStrBody_esc s.data rest]
  | .varr [], fuel, rest, hf, _ => by
    obtain ⟨f, rfl⟩ : ∃ f, fuel = f + 1 := ⟨fuel - 1, by simp [vsize] at hf; omega⟩
    rw [show encVal (.varr []) ++ rest = '[' :: (']' :: rest) by simp [encVal]]
    simp [parseVal]
  | .varr (x :: xs), fuel, rest, hf, hr => by
    obtain ⟨f, rfl⟩ : ∃ f, fuel = f + 1 := ⟨fuel - 1, by simp [vsize] at hf; omega⟩
    have hfx : esizeAux x xs < f := by simp [vsize] at hf; omega
    obtain ⟨c0, cs0, hE, hne1, _⟩ := encVal_shape x
    have htl : ∃ tl, encElems x xs ++ rest = c0 :: tl := by
      cases xs <;> simp [encElems, hE]
    obtain ⟨tl, htl⟩ := htl
    rw [show encVal (.varr (x :: xs)) ++ rest = '[' :: (encElems x xs ++ rest) by
      simp [encVal]]
    rw [htl]
    simp only [parseVal, if_neg hne1]
    simp only [show (('[' : Char) = 'n') = False by decide,
      show (('[' : Char) = 't') = False by decide,
      show (('[' : Char) = 'f') = False by decide,
      show (('[' : Char) = '"') = False by decide,
      show (('[' : Char) = '[') = True by decide, if_false, if_true]
    rw [← htl, re_enc x xs f rest hfx hr]
  | .vobj [], fuel, rest, hf, _ => by
    obtain ⟨f, rfl⟩ : ∃ f, fuel = f + 1 := ⟨fuel - 1, by simp [vsize] at hf; omega⟩
    rw [show encVal (.vobj []) ++ rest = lbrace :: (rbrace :: rest) by simp [encVal]]
    simp [parseVal, lbrace, rbrace]
  | .vobj (f0 :: fs), fuel, rest, hf, hr => by
    obtain ⟨f, rfl⟩ : ∃ f, fuel = f + 1 := ⟨fuel - 1, by simp [vsize] at hf; omega⟩
    have hff : fsizeAux f0 fs < f := by simp [vsize] at hf; omega
    have hkey : ∃ tl, encFields f0 fs ++ rest = '"' :: tl := by
      cases hf0 : f0 with
      | mk k v => cases fs <;> simp [encFields, encStr]
    obtain ⟨tl, htl⟩ := hkey
    rw [show encVal (.vobj (f0 :: fs)) ++ rest = lbrace :: (encFields f0 fs ++ rest) by
      simp [encVal]]
    rw [htl]
    simp only [parseVal, lbrace, rbrace]
    simp only [show (('\x7b' : Char) = 'n') = False by decide,
      show (('\x7b' : Char) = 't') = False by decide,
      show (('\x7b' : Char) = 'f') = False by decide,
      show (('\x7b' : Char) = '"') = False by decide,
      show (('\x7b' : Char) = '[') = False by decide,
      show (('\x7b' : Char) = '\x7b') = True by decide,
      show (('"' : Char) = '\x7d') = False by decide, if_false, if_true]
    rw [← htl]
    have := rf_enc f0 fs f rest hff hr
    simp only [lbrace, rbrace] at this ⊢
    rw [this]
termination_by v _ _ _ _ => sizeOf v

theorem re_enc : ∀ (x : Value) (xs : List Value) (fuel : Nat) (rest : List Char),
    esizeAux x xs < fuel → digitStart rest = false →
    parseElems fuel (encElems x xs ++ rest) = some (x :: xs, rest)
  | x, [], fuel, rest, hf, hr => by
    obtain ⟨f, rfl⟩ : ∃ f, fuel = f + 1 := ⟨fuel - 1, by simp [esizeAux] at hf; omega⟩
    have hfx : vsize x < f := by simp [esizeAux] at hf; omega
    rw [show encElems x [] ++ rest = encVal x ++ (']' :: rest) by simp [encElems]]
    simp only [parseElems]
    rw [rv_enc x f (']' :: rest) hfx (by rfl)]
    simp
  | x, y :: ys, fuel, rest, hf, hr => by
    obtain ⟨f, rfl⟩ : ∃ f, fuel = f + 1 := ⟨fuel - 1, by simp [esizeAux] at hf; omega⟩
    have hfx : vsize x < f := by simp [esizeAux] at hf; omega
    have hfy : esizeAux y ys < f := by simp [esizeAux] at hf; omega
    rw [show encElems x (y :: ys) ++ rest = encVal x ++ (',' :: (encElems y ys ++ rest)) by
      simp [encElems]]
    simp only [parseElems]
    rw [rv_enc x f _ hfx (by rfl)]
    simp only [show ((',' : Char) = ',') = True by decide, if_true]
    rw [re_enc y ys f rest hfy hr]
termination_by x xs _ _ _ _ => sizeOf x + sizeOf xs + 1

theorem rf_enc : ∀ (kv : String × Value) (fs : List (String × Value)) (fuel : Nat)
    (rest : List Char), fsizeAux kv fs < fuel → digitStart rest = false →
    parseFields fuel (encFields kv fs ++ rest) = some (kv :: fs, rest)
  | (k, v), [], fuel, rest, hf, hr => by
    obtain ⟨f, rfl⟩ : ∃ f, fuel = f + 1 := ⟨fuel - 1, by simp [fsizeAux] at hf; omega⟩
    have hfv : vsize v < f := by simp [fsizeAux] at hf; omega
    rw [show encFields (k, v) [] ++ rest =
        '"' :: (escChars k.data ++ ('"' :: (':' :: (encVal v ++ (rbrace :: rest))))) by
      simp [encFields, encStr]]
    simp only [parseFields]
    simp only [show (('"' : Char) = '"') = True by decide, if_true]
    rw [parseStrBody_esc k.data]
    simp only []
    rw [rv_enc v f _ hfv (by rfl)]
    simp only [show ((rbrace : Char) = ',') = False by decide,
      show ((rbrace : Char) = rbrace) = True by decide, if_false, if_true]
  | (k, v), f2 :: fs, fuel, rest, hf, hr => by
    obtain ⟨f, rfl⟩ : ∃ f, fuel = f + 1 := ⟨fuel - 1, by simp [fsizeAux] at hf; omega⟩
    have hfv : vsize v < f := by simp [fsizeAux] at hf; omega
    have hff : fsizeAux f2 fs < f := by simp [fsizeAux] at hf; omega
    rw [show encFields (k, v) (f2 :: fs) ++ rest =
        '"' :: (escChars k.data ++ ('"' :: (':' :: (encVal v ++
          (',' :: (encFields f2 fs ++ rest)))))) by
      simp [encFields, encStr]]
    simp only [parseFields]
    simp only [show (('"' : Char) = '"') = True by decide, if_true]
    rw [parseStrBody_esc k.data]
    simp only []
    rw [rv_enc v f _ hfv (by rfl)]
    simp only [show ((',' : Char) = ',') = True by decide, if_true]
    rw [rf_enc f2 fs f rest hff hr]
termination_by kv fs _ _ _ _ => sizeOf kv + sizeOf fs

end

mutual

theorem vsize_le : ∀ v : Value, vsize v ≤ (encVal v).length
  | .vnull => by simp [vsize, encVal]
  | .vbool true => by simp [vsize, encVal]
  | .vbool false => by simp [vsize, encVal]
  | .vnum i => by
    obtain ⟨c, cs, hE, _, _, _, _, _, _, _, _⟩ := encInt_shape i
    simp [vsize, encVal, hE]
  | .vstr s => by simp [vsize, encVal, encStr]
  | .varr [] => by simp [vsize, encVal]
  | .varr (x :: xs) => by
    have h := esize_le x xs
    simp only [vsize, encVal, List.length_cons]
    omega
  | .vobj [] => by simp [vsize, encVal]
  | .vobj (f :: fs) => by
    have h := fsize_le f fs
    simp only [vsize, encVal, List.length_cons]
    omega
termination_by v => sizeOf v

theorem esize_le : ∀ (x : Value) (xs : List Value), esizeAux x xs ≤ (encElems x xs).length
  | x, [] => by
    have h := vsize_le x
    simp only [esizeAux, encElems, List.length_append, List.length_cons, List.length_nil]
    omega
  | x, y :: ys => by
    have h1 := vsize_le x
    have h2 := esize_le y ys
    simp only [esizeAux, encElems, List.length_append, List.length_cons]
    omega
termination_by x xs => sizeOf x + sizeOf xs + 1

theorem fsize_le : ∀ (kv : String × Value) (fs : List (String × Value)),
    fsizeAux kv fs ≤ (encFields kv fs).length
  | (k, v), [] => by
    have h := vsize_le v
    simp only [fsizeAux, encFields, List.length_append, List.length_cons, List.length_nil]
    omega
  | (k, v), f :: fs => by
    have h1 := vsize_le v
    have h2 := fsize_le f fs
    simp only [fsizeAux, encFields, List.length_append, List.length_cons]
    omega
termination_by kv fs => sizeOf kv + sizeOf fs

end

theorem valueToSerCall_roundtrip (c : SerCall) :
    valueToSerCall (serCallToValue c) = some c := by
  cases c
  simp [serCallToValue, valueToSerCall]

theorem valuesToSerCalls_roundtrip (cs : List SerCall) :
    valuesToSerCalls (cs.map serCallToValue) = some cs := by
  induction cs with
  | nil => simp [valuesToSerCalls]
  | cons c cs ih => simp [valuesToSerCalls, valueToSerCall_roundtrip, ih]

theorem valueToBoundaries_roundtrip (bs : List (String × List SerCall)) :
    valueToBoundaries (bs.map (fun p => (p.1, .varr (p.2.map serCallToValue)))) = some bs := by
  induction bs with
  | nil => simp [valueToBoundaries]
  | cons p rest ih =>
    cases p with
    | mk k cs => simp [valueToBoundaries, valuesToSerCalls_roundtrip, ih]

theorem valueToLogItem_roundtrip (li : LogItem) :
    valueToLogItem (logItemToValue li) = some li := by
  cases li with
  | mk nm inp oc bs =>
    cases oc with
    | succ o =>
      simp [logItemToValue, valueToLogItem, valueToBoundaries_roundtrip]
    | fail e =>
      simp [logItemToValue, valueToLogItem, valueToBoundaries_roundtrip]

theorem encodeLines_length (items : List LogItem) :
    items.length ≤ (encodeLines items).length := by
  induction items with
  | nil => simp [encodeLines]
  | cons li lis ih =>
    simp only [encodeLines, List.length_append, List.length_cons, List.length_cons]
    omega

theorem parseLogLines_enc (items : List LogItem) :
    ∀ fuel, items.length < fuel → parseLogLines fuel (encodeLines items) = some items := by
  induction items with
  | nil =>
    intro fuel hf
    obtain ⟨f, rfl⟩ : ∃ f, fuel = f + 1 := ⟨fuel - 1, by omega⟩
    simp [encodeLines, parseLogLines]
  | cons li lis ih =>
    intro fuel hf
    obtain ⟨f, rfl⟩ : ∃ f, fuel = f + 1 := ⟨fuel - 1, by omega⟩
    have hne : encodeLines (li :: lis) ≠ [] := by
      simp only [encodeLines]
      obtain ⟨c, cs, hE, _, _⟩ := encVal_shape (logItemToValue li)
      simp [encodeLogItem, hE]
    have hsize : vsize (logItemToValue li) < (encodeLines (li :: lis)).length + 1 := by
      have h1 := vsize_le (logItemToValue li)
      simp only [encodeLines, List.length_append, List.length_cons, encodeLogItem]
      omega
    have hparse : parseVal ((encodeLines (li :: lis)).length + 1) (encodeLines (li :: lis)) =
        some (logItemToValue li, '\n' :: encodeLines lis) := by
      rw [show encodeLines (li :: lis) = encVal (logItemToValue li) ++
          ('\n' :: encodeLines lis) by simp [encodeLines, encodeLogItem]]
      exact rv_enc (logItemToValue li) _ _ (by
        have h1 := vsize_le (logItemToValue li)
        simp only [List.length_append, List.length_cons]
        omega) (by rfl)
    obtain ⟨c0, cs0, hE0⟩ : ∃ c0 cs0, encodeLines (li :: lis) = c0 :: cs0 := by
      cases hx : encodeLines (li :: lis) with
      | nil => exact absurd hx hne
      | cons a b => exact ⟨a, b, rfl⟩
    rw [hE0] at hparse ⊢
    simp only [parseLogLines]
    rw [hparse]
    simp only [show (('\n' : Char) = '\n') = True by decide, if_true,
      valueToLogItem_roundtrip li, ih f (by simp at hf; omega)]

theorem encodeLines_eq_flatten (l : List LogItem) :
    encodeLines l = (l.map (fun li => encodeLogItem li ++ ['\n'])).flatten := by
  induction l with
  | nil => simp [encodeLines]
  | cons li lis ih => simp [encodeLines, ih]

/-- C8: a push followed by `save` writes exactly `stringify()` — one JSON
object per line with a trailing newline — and a fresh tape at the same path
loads back a log deep-equal to the saved one (the pushed LogItem last), with
`load` always placing on-disk entries ahead of in-memory pushes. -/
theorem c8_tape_roundtrip (t : RecordTape) (name : String) (R : ExecutionRecord) (fs : FS)
    (hdir : parentDir (t.path ++ ".log") ∈ fs.dirs) :
    ∃ fs', (t.push name R).save fs = .ok fs'
      ∧ fs'.readFile (t.path ++ ".log") = some ((t.push name R).stringify)
      ∧ (t.push name R).stringify =
          String.mk ((((t.push name R).log).map (fun li => encodeLogItem li ++ ['\n'])).flatten)
      ∧ (RecordTape.make t.path).load fs' =
          .ok { path := t.path, log := (t.push name R).log }
      ∧ ((t.push name R).log).getLast? = some (toLogItem name R)
      ∧ (∀ (t2 : RecordTape) (fs2 : FS) (content : String) (items : List LogItem),
          fs2.readFile (t2.path ++ ".log") = some content →
          parseLogLines (content.data.length + 1) content.data = some items →
          t2.load fs2 = .ok { path := t2.path, log := items ++ t2.log }) := by
  refine ⟨fs.writeFile (t.path ++ ".log") ((t.push name R).stringify), ?_, ?_, ?_, ?_, ?_, ?_⟩
  · simp only [RecordTape.save, RecordTape.push]
    rw [if_pos hdir]
  · simp [FS.readFile, FS.writeFile, List.lookup]
  · simp only [RecordTape.stringify, RecordTape.push]
    rw [encodeLines_eq_flatten]
  · simp only [RecordTape.load, RecordTape.make, FS.readFile, FS.writeFile,
      List.lookup, beq_self_eq_true]
    have hdata : ((t.push name R).stringify).data = encodeLines ((t.push name R).log) := rfl
    rw [hdata]
    rw [parseLogLines_enc ((t.push name R).log) (encodeLines ((t.push name R).log)).length.succ
      (by have := encodeLines_length ((t.push name R).log); omega)]
    simp [RecordTape.push]
  · simp [RecordTape.push, List.getLast?_concat]
  · intro t2 fs2 content items h1 h2
    simp only [RecordTape.load, h1]
    rw [h2]

/-- C8 witness: a fresh tape at `fixtures/save`, one pushed record, a
file system whose `fixtures` directory exists. -/
theorem c8_tape_roundtrip_witness :
    ∃ fs', ((RecordTape.make "fixtures/save").push "test-task"
        { input := .vobj [("value", .vnum 5)], output := some (.vobj [("result", .vnum 10)]),
          error := none,
          boundaries := [("fetchData",
            [{ input := [.vnum 5], output := some (.vnum 10), error := none,
               timing := { startTime := 0, endTime := 1, duration := 1 } }])],
          type := .success, taskName := "successTask" }).save
        { dirs := ["fixtures"], files := [] } = .ok fs'
      ∧ fs'.readFile ((RecordTape.make "fixtures/save").path ++ ".log") =
          some (((RecordTape.make "fixtures/save").push "test-task"
            { input := .vobj [("value", .vnum 5)], output := some (.vobj [("result", .vnum 10)]),
              error := none,
              boundaries := [("fetchData",
                [{ input := [.vnum 5], output := some (.vnum 10), error := none,
                   timing := { startTime := 0, endTime := 1, duration := 1 } }])],
              type := .success, taskName := "successTask" }).stringify)
      ∧ ((RecordTape.make "fixtures/save").push "test-task"
            { input := .vobj [("value", .vnum 5)], output := some (.vobj [("result", .vnum 10)]),
              error := none,
              boundaries := [("fetchData",
                [{ input := [.vnum 5], output := some (.vnum 10), error := none,
                   timing := { startTime := 0, endTime := 1, duration := 1 } }])],
              type := .success, taskName := "successTask" }).stringify =
          String.mk (((((RecordTape.make "fixtures/save").push "test-task"
            { input := .vobj [("value", .vnum 5)], output := some (.vobj [("result", .vnum 10)]),
              error := none,
              boundaries := [("fetchData",
                [{ input := [.vnum 5], output := some (.vnum 10), error := none,
                   timing := { startTime := 0, endTime := 1, duration := 1 } }])],
              type := .success, taskName := "successTask" }).log).map
            (fun li => encodeLogItem li ++ ['\n'])).flatten)
      ∧ (RecordTape.make (RecordTape.make "fixtures/save").path).load fs' =
          .ok { path := (RecordTape.make "fixtures/save").path,
                log := ((RecordTape.make "fixtures/save").push "test-task"
                  { input := .vobj [("value", .vnum 5)],
                    output := some (.vobj [("result", .vnum 10)]), error := none,
                    boundaries := [("fetchData",
                      [{ input := [.vnum 5], output := some (.vnum 10), error := none,
                         timing := { startTime := 0, endTime := 1, duration := 1 } }])],
                    type := .success, taskName := "successTask" }).log }
      ∧ (((RecordTape.make "fixtures/save").push "test-task"
            { input := .vobj [("value", .vnum 5)], output := some (.vobj [("result", .vnum 10)]),
              error := none,
              boundaries := [("fetchData",
                [{ input := [.vnum 5], output := some (.vnum 10), error := none,
                   timing := { startTime := 0, endTime := 1, duration := 1 } }])],
              type := .success, taskName := "successTask" }).log).getLast? =
          some (toLogItem "test-task"
            { input := .vobj [("value", .vnum 5)], output := some (.vobj [("result", .vnum 10)]),
              error := none,
              boundaries := [("fetchData",
                [{ input := [.vnum 5], output := some (.vnum 10), error := none,
                   timing := { startTime := 0, endTime := 1, duration := 1 } }])],
              type := .success, taskName := "successTask" })
      ∧ (∀ (t2 : RecordTape) (fs2 : FS) (content : String) (items : List LogItem),
          fs2.readFile (t2.path ++ ".log") = some content →
          parseLogLines (content.data.length + 1) content.data = some items →
          t2.load fs2 = .ok { path := t2.path, log := items ++ t2.log }) :=
  c8_tape_roundtrip (RecordTape.make "fixtures/save") "test-task"
    { input := .vobj [("value", .vnum 5)], output := some (.vobj [("result", .vnum 10)]),
      error := none,
      boundaries := [("fetchData",
        [{ input := [.vnum 5], output := some (.vnum 10), error := none,
           timing := { startTime := 0, endTime := 1, duration := 1 } }])],
      type := .success, taskName := "successTask" }
    { dirs := ["fixtures"], files := [] } (by decide)

/-- C9: `save` and `saveSync` are the same function of the tape and file
system: both fail with `FolderNotFound` exactly when the parent directory is
absent, and both succeed by (re)creating the file with the full serialized
in-memory list regardless of whether the file already exists. -/
theorem c9_save_saveSync_identical (t : RecordTape) (fs : FS) :
    t.save fs = t.saveSync fs
    ∧ (parentDir (t.path ++ ".log") ∉ fs.dirs →
        t.save fs = .error "Folder doesn't exists"
        ∧ t.saveSync fs = .error "Folder doesn't exists")
    ∧ (parentDir (t.path ++ ".log") ∈ fs.dirs →
        t.save fs = .ok (fs.writeFile (t.path ++ ".log") t.stringify)
        ∧ t.saveSync fs = .ok (fs.writeFile (t.path ++ ".log") t.stringify)
        ∧ (fs.writeFile (t.path ++ ".log") t.stringify).readFile (t.path ++ ".log") =
            some t.stringify) := by
  refine ⟨rfl, ?_, ?_⟩
  · intro h
    constructor <;> simp [RecordTape.save, RecordTape.saveSync, h]
  · intro h
    refine ⟨?_, ?_, ?_⟩
    · simp [RecordTape.save, h]
    · simp [RecordTape.saveSync, h]
    · simp [FS.readFile, FS.writeFile, List.lookup]

/-- C9 witness: concrete tape and file systems with the parent directory
absent and present. -/
theorem c9_save_saveSync_identical_witness :
    ((RecordTape.make "fixtures/save").save { dirs := [], files := [] } =
        .error "Folder doesn't exists"
      ∧ (RecordTape.make "fixtures/save").saveSync { dirs := [], files := [] } =
        .error "Folder doesn't exists")
    ∧ ((RecordTape.make "fixtures/save").save { dirs := ["fixtures"], files := [] } =
        .ok (FS.writeFile { dirs := ["fixtures"], files := [] }
          ((RecordTape.make "fixtures/save").path ++ ".log")
          (RecordTape.make "fixtures/save").stringify)
      ∧ (RecordTape.make "fixtures/save").saveSync { dirs := ["fixtures"], files := [] } =
        .ok (FS.writeFile { dirs := ["fixtures"], files := [] }
          ((RecordTape.make "fixtures/save").path ++ ".log")
          (RecordTape.make "fixtures/save").stringify)
      ∧ (FS.writeFile { dirs := ["fixtures"], files := [] }
          ((RecordTape.make "fixtures/save").path ++ ".log")
          (RecordTape.make "fixtures/save").stringify).readFile
          ((RecordTape.make "fixtures/save").path ++ ".log") =
        some (RecordTape.make "fixtures/save").stringify) :=
  ⟨(c9_save_saveSync_identical (RecordTape.make "fixtures/save")
      { dirs := [], files := [] }).2.1 (by decide),
   (c9_save_saveSync_identical (RecordTape.make "fixtures/save")
      { dirs := ["fixtures"], files := [] }).2.2 (by decide)⟩

/-- C10: a client constructed without API credentials answers `'silent'` from
`sendLog`/`sendLogByUuid` for every record and every request outcome (so no
request result is ever consulted), while `getLog` and `setQuality` throw; and
for any initialized client a failing HTTP request makes `sendLog` and
`sendLogByUuid` return `'error'` rather than propagate. -/
theorem c10_sendLog_never_throws (cfg : HiveLogClientConfig) (env : EnvVars)
    (hcred : (cfg.apiKey <|> env.hiveApiKey) = none ∨
      (cfg.apiSecret <|> env.hiveApiSecret) = none) :
    (∀ r h, (mkHiveLogClient cfg env).sendLog r h = .silent)
    ∧ (∀ r u h, (mkHiveLogClient cfg env).sendLogByUuid r u h = .silent)
    ∧ (∀ tn u h, (mkHiveLogClient cfg env).getLog tn u h =
        .error "Missing Hive API credentials or host, get them at https://www.forgehive.cloud")
    ∧ (∀ tn u q h, (mkHiveLogClient cfg env).setQuality tn u q h =
        .error "Missing Hive API credentials or host, get them at https://www.forgehive.cloud")
    ∧ (∀ (c : HiveLogClient) r m, c.isInitialized = true →
        c.sendLog r (.failure m) = .error)
    ∧ (∀ (c : HiveLogClient) r u m, c.isInitialized = true → c.projectUuid.isNone = false →
        c.sendLogByUuid r u (.failure m) = .error) := by
  have hsilent : (mkHiveLogClient cfg env).isInitialized = false := by
    cases hk : cfg.apiKey <|> env.hiveApiKey with
    | none => cases hs : cfg.apiSecret <|> env.hiveApiSecret <;>
        simp [mkHiveLogClient, hk, hs]
    | some k =>
      cases hs : cfg.apiSecret <|> env.hiveApiSecret with
      | none => simp [mkHiveLogClient, hk, hs]
      | some s =>
        rcases hcred with h | h
        · rw [hk] at h; exact absurd h (by simp)
        · rw [hs] at h; exact absurd h (by simp)
  refine ⟨?_, ?_, ?_, ?_, ?_, ?_⟩
  · intro r h; simp [HiveLogClient.sendLog, hsilent]
  · intro r u h; simp [HiveLogClient.sendLogByUuid, hsilent]
  · intro tn u h; simp [HiveLogClient.getLog, hsilent]
  · intro tn u q h; simp [HiveLogClient.setQuality, hsilent]
  · intro c r m hinit; simp [HiveLogClient.sendLog, hinit]
  · intro c r u m hinit hpu; simp [HiveLogClient.sendLogByUuid, hinit, hpu]

/-- C10 witness: a concrete credential-less configuration and environment,
and a concrete initialized client with a failing request. -/
theorem c10_sendLog_never_throws_witness :
    (∀ r h, (mkHiveLogClient
        { projectName := "demo", projectUuid := none, apiKey := none,
          apiSecret := none, host := none, metadata := [] }
        { hiveApiKey := none, hiveApiSecret := none, hiveHost := none }).sendLog r h = .silent)
    ∧ (∀ r u h, (mkHiveLogClient
        { projectName := "demo", projectUuid := none, apiKey := none,
          apiSecret := none, host := none, metadata := [] }
        { hiveApiKey := none, hiveApiSecret := none, hiveHost := none }).sendLogByUuid
          r u h = .silent)
    ∧ (∀ tn u h, (mkHiveLogClient
        { projectName := "demo", projectUuid := none, apiKey := none,
          apiSecret := none, host := none, metadata := [] }
        { hiveApiKey := none, hiveApiSecret := none, hiveHost := none }).getLog tn u h =
        .error "Missing Hive API credentials or host, get them at https://www.forgehive.cloud")
    ∧ (∀ tn u q h, (mkHiveLogClient
        { projectName := "demo", projectUuid := none, apiKey := none,
          apiSecret := none, host := none, metadata := [] }
        { hiveApiKey := none, hiveApiSecret := none, hiveHost := none }).setQuality tn u q h =
        .error "Missing Hive API credentials or host, get them at https://www.forgehive.cloud")
    ∧ (∀ (c : HiveLogClient) r m, c.isInitialized = true →
        c.sendLog r (.failure m) = .error)
    ∧ (∀ (c : HiveLogClient) r u m, c.isInitialized = true → c.projectUuid.isNone = false →
        c.sendLogByUuid r u (.failure m) = .error) :=
  c10_sendLog_never_throws
    { projectName := "demo", projectUuid := none, apiKey := none,
      apiSecret := none, host := none, metadata := [] }
    { hiveApiKey := none, hiveApiSecret := none, hiveHost := none }
    (Or.inl rfl)
